import Mathlib

/-!
Verification of the schedule extraction and normalization engine of
`generate_posts.py` (repository `weiying-chen/word`).

The engine is embedded shallowly: a paragraph line is a `List Char`, the
side-channel hyperlink target of a line is an `Option (List Char)`, and each
Python helper becomes a Lean function of the same name (in `camelCase`).
Python string semantics are reproduced explicitly:

* `str.strip()` / `str.split()` / regex `\s` use the Unicode whitespace set
  (`pyIsSpace`);
* `str.replace(old, new)` is the left-to-right non-overlapping scan
  (`replList`);
* regex matching (`TRANSLATOR_TAG_RE`, `DASH_SPLIT_RE`, `PAREN_TITLE_RE`,
  the date patterns, the marker patterns) is compiled by hand into
  deterministic scanners that implement the leftmost-match semantics of
  `re.match` / `re.sub` / `re.split` / `re.findall` for these particular
  patterns (each is commented at its definition);
* regex `\d` and `str.isalnum` are modelled on the character ranges the
  schedule data exercises (ASCII digits; ASCII alphanumerics plus the CJK
  unified ideograph block, which the source's own `_is_cjk` check also
  singles out).  Python's classes additionally accept other Unicode scripts;
  none of the proved statements depend on the exact extension of these
  predicates.

The document loader `iter_non_empty_paragraphs` (python-docx I/O) is outside
the core: extraction is modelled, as the spec's data model prescribes, as a
function of the already-loaded pair of parallel lists
`lines : List (List Char)` and `urlTargets : List (Option (List Char))`,
plus the current year (the blocks extractor reads `date.today().year`).
-/

/-- Shorthand: the character list of a string literal. -/
def str (s : String) : List Char := s.data

/-- Python's Unicode whitespace set, as used by `str.strip`, `str.split`
and regex `\s` (the characters for which CPython's `Py_UNICODE_ISSPACE`
holds). -/
def pyIsSpace (c : Char) : Bool :=
  c = ' ' || c = '\t' || c = '\n' || c = '\r' ||
  c.toNat = 11 || c.toNat = 12 ||
  c.toNat = 28 || c.toNat = 29 || c.toNat = 30 || c.toNat = 31 ||
  c.toNat = 133 || c.toNat = 160 || c.toNat = 0x1680 ||
  (0x2000 ≤ c.toNat && c.toNat ≤ 0x200a) ||
  c.toNat = 0x2028 || c.toNat = 0x2029 ||
  c.toNat = 0x202f || c.toNat = 0x205f || c.toNat = 0x3000

/-- `[A-Za-z]` of `TRANSLATOR_TAG_RE`. -/
def isAsciiLetter (c : Char) : Bool :=
  ('A' ≤ c && c ≤ 'Z') || ('a' ≤ c && c ≤ 'z')

/-- Regex `\d`, modelled as the ASCII digits (see the header comment;
stated on code points, which is the character order). -/
def isDigitChar (c : Char) : Bool := 48 ≤ c.toNat && c.toNat ≤ 57

/-- `CJK_RE = [一-鿿]`: one character of the CJK unified block. -/
def isCJKChar (c : Char) : Bool :=
  0x4e00 ≤ c.toNat && c.toNat ≤ 0x9fff

/-- `_is_cjk(text)`: `CJK_RE.search` finds some CJK character. -/
def isCjk (text : List Char) : Bool := text.any isCJKChar

/-- `str.isalnum`, modelled as ASCII alphanumerics together with the CJK
block (see the header comment). -/
def pyIsAlnum (c : Char) : Bool := c.isAlphanum || isCJKChar c

/-- Membership in `QUOTE_CHARS = "\"'“”‘’"`. -/
def isQuoteChar (c : Char) : Bool :=
  c = '"' || c = '\x27' || c.toNat = 0x201c || c.toNat = 0x201d ||
  c.toNat = 0x2018 || c.toNat = 0x2019

/-- Python `str.strip()` (no argument): drop leading and trailing Unicode
whitespace (`List.rdropWhile p l` is `reverse (dropWhile p (reverse l))`,
i.e. removal of the trailing `p`-run). -/
def pyStrip (s : List Char) : List Char :=
  List.rdropWhile pyIsSpace (s.dropWhile pyIsSpace)

/-- Python `str.replace(old, new)` for a non-empty `old` (split here into
head `o` and tail `os`): scan left to right, replacing non-overlapping
occurrences.  The scan consumes at least one character per step, so a fuel
of the input length (supplied by the `replList` wrapper) is exact; the
fuel-exhausted branch is unreachable. -/
def replListAux (o : Char) (os new : List Char) : Nat → List Char → List Char
  | _, [] => []
  | 0, l => l
  | fuel + 1, c :: rest =>
    if c = o ∧ os.isPrefixOf rest then
      new ++ replListAux o os new fuel (rest.drop os.length)
    else
      c :: replListAux o os new fuel rest

/-- Python `str.replace(old, new)` (see `replListAux`). -/
def replList (o : Char) (os new s : List Char) : List Char :=
  replListAux o os new s.length s

/-- Python `sub in s` / `s.split(sub, 1)` for non-empty `sub`: locate the
leftmost occurrence of `sub` and return the parts before and after it. -/
def splitFirst (sub : List Char) : List Char → Option (List Char × List Char)
  | [] => none
  | c :: rest =>
    if sub.isPrefixOf (c :: rest) then
      some ([], (c :: rest).drop sub.length)
    else
      (splitFirst sub rest).map (fun pr => (c :: pr.1, pr.2))

/-- Python `sub in s` (substring containment) for non-empty `sub`. -/
def containsSub (sub s : List Char) : Bool := (splitFirst sub s).isSome

/-- Does `l` match `TRANSLATOR_TAG_RE = \s*[A-Za-z]+/[A-Za-z]+\s*$`
in its entirety (i.e. is `l` a whole match ending at the string end)?
The leading `\s*`, the letter runs and the trailing `\s*` are all
deterministic for this pattern, so maximal munch is exact. -/
def isTagSuffix (l : List Char) : Bool :=
  let t := l.dropWhile pyIsSpace
  let a := t.takeWhile isAsciiLetter
  match t.drop a.length with
  | '/' :: r =>
    let b := r.takeWhile isAsciiLetter
    !a.isEmpty && !b.isEmpty && (r.drop b.length).all pyIsSpace
  | _ => false

/-- `TRANSLATOR_TAG_RE.sub("", l)`: the pattern is anchored at `$`, so
`re.sub` removes at most one match — the one starting at the leftmost
position whose whole suffix matches.  We scan left to right for it. -/
def stripTagSuffix : List Char → List Char
  | [] => []
  | c :: rest =>
    if isTagSuffix (c :: rest) then [] else c :: stripTagSuffix rest

/-- `normalize_title` from `generate_posts.py`. -/
def normalizeTitle (titleLine : List Char) : List Char :=
  let t1 := pyStrip (replList ' ' (str "- ") (str " ") titleLine)
  let t2 := pyStrip (stripTagSuffix t1)
  replList '/' [] [] t2

/-- `_clean_title_for_display`. -/
def cleanTitleForDisplay (titleLine : List Char) : List Char :=
  pyStrip (stripTagSuffix titleLine)

/-- `_strip_quotes`: `str.translate` deleting every `QUOTE_CHARS`
character. -/
def stripQuotes (text : List Char) : List Char :=
  text.filter (fun c => !isQuoteChar c)

/-- `_is_cjk` lifted to the last-CJK-parenthetical selection used below:
`for inner in reversed(matches): if _is_cjk(inner): return inner.strip()`. -/
def lastCjkParenthetical (ms : List (List Char)) : Option (List Char) :=
  (ms.reverse.find? isCjk).map pyStrip

/-- Open parenthesis of `PAREN_TITLE_RE = [(（]([^()（）]+)[)）]`. -/
def isOpenParen (c : Char) : Bool := c = '(' || c.toNat = 0xff08

/-- Close parenthesis of `PAREN_TITLE_RE`. -/
def isCloseParen (c : Char) : Bool := c = ')' || c.toNat = 0xff09

/-- Any of the four parenthesis characters excluded by `[^()（）]`. -/
def isParenChar (c : Char) : Bool := isOpenParen c || isCloseParen c

/-- `PAREN_TITLE_RE.findall(text)`: scan left to right; at an opening
parenthesis take the maximal run of non-parenthesis characters; the match
succeeds when that run is non-empty and a closing parenthesis follows
(this reproduces the regex engine: the greedy `[^()（）]+` cannot be
shortened, since the character after a shorter run is still not a
parenthesis).  On failure the scan advances one character, as `re`
does. -/
def parenMatchesAux : Nat → List Char → List (List Char)
  | _, [] => []
  | 0, _ => []
  | fuel + 1, c :: rest =>
    if isOpenParen c then
      let inner := rest.takeWhile (fun x => !isParenChar x)
      match rest.drop inner.length with
      | d :: rest3 =>
        if isCloseParen d ∧ inner ≠ [] then inner :: parenMatchesAux fuel rest3
        else parenMatchesAux fuel rest
      | [] => parenMatchesAux fuel rest
    else parenMatchesAux fuel rest

/-- `PAREN_TITLE_RE.findall(text)` (see `parenMatchesAux`; the fuel of
the input length is exact, each step consuming at least one
character). -/
def parenMatches (text : List Char) : List (List Char) :=
  parenMatchesAux text.length text

/-- `re.sub(PAREN_TITLE_RE-pattern, "", text)` (the scan of
`_strip_parenthetical`, before the final `strip`): same match discipline
as `parenMatches`, but matches are deleted and non-matching characters are
kept. -/
def stripParenAux : Nat → List Char → List Char
  | _, [] => []
  | 0, l => l
  | fuel + 1, c :: rest =>
    if isOpenParen c then
      let inner := rest.takeWhile (fun x => !isParenChar x)
      match rest.drop inner.length with
      | d :: rest3 =>
        if isCloseParen d ∧ inner ≠ [] then stripParenAux fuel rest3
        else c :: stripParenAux fuel rest
      | [] => c :: stripParenAux fuel rest
    else c :: stripParenAux fuel rest

/-- `_strip_parenthetical`. -/
def stripParenthetical (text : List Char) : List Char :=
  pyStrip (stripParenAux text.length text)

/-- `DASH_SPLIT_RE.split(s, 1)` where `DASH_SPLIT_RE = \s*-\s*`: the
leftmost match starts at a position from which a (possibly empty) run of
whitespace is followed by `-`; the match greedily consumes the whitespace
run, the `-`, and the following whitespace run.  Returns the two
surrounding parts, or `none` when there is no match (no `-` in `s`). -/
def reSplitDash1 : List Char → Option (List Char × List Char)
  | [] => none
  | c :: rest =>
    match (c :: rest).dropWhile pyIsSpace with
    | d :: u =>
      if d = '-' then some ([], u.dropWhile pyIsSpace)
      else (reSplitDash1 rest).map (fun pr => (c :: pr.1, pr.2))
    | [] => (reSplitDash1 rest).map (fun pr => (c :: pr.1, pr.2))

/-- `_split_program_title`. -/
def splitProgramTitle (titleLine : List Char) : List Char × List Char :=
  let cleaned := cleanTitleForDisplay titleLine
  match splitFirst (str " - ") cleaned with
  | some (p, t) => (pyStrip p, pyStrip t)
  | none =>
    if cleaned.contains '-' then
      match reSplitDash1 cleaned with
      | some (l0, r0) =>
        let l := pyStrip l0
        let r := pyStrip r0
        if l ≠ [] ∧ r ≠ [] ∧
            (l.contains ' ' ∨ r.contains ' ' ∨ isCjk l ∨ isCjk r) then
          (l, r)
        else (pyStrip cleaned, pyStrip cleaned)
      | none => (pyStrip cleaned, pyStrip cleaned)
    else (pyStrip cleaned, pyStrip cleaned)

/-- The character set of `_strip_trailing_filename_punct`'s `rstrip`. -/
def isFilenamePunct (c : Char) : Bool :=
  pyIsSpace c || c.toNat = 0x3002 || c.toNat = 0xff0e || c = '.' ||
  c.toNat = 0xff1f || c = '?' || c.toNat = 0xff01 || c = '!' ||
  c.toNat = 0xff1a || c = ':' || c = ';' || c.toNat = 0xff1b ||
  c = ',' || c.toNat = 0xff0c

/-- `_strip_trailing_filename_punct`: `rstrip` over the punctuation set
(`" \t\r\n"` plus full- and half-width sentence punctuation; the four
ASCII whitespace characters of the literal are covered by `pyIsSpace`). -/
def stripTrailingFilenamePunct (text : List Char) : List Char :=
  List.rdropWhile isFilenamePunct text

/-- `re.sub(r"\s+", " ", s)`: each maximal whitespace run becomes one
space. -/
def collapseWsAux : Nat → List Char → List Char
  | _, [] => []
  | 0, l => l
  | fuel + 1, c :: rest =>
    if pyIsSpace c then ' ' :: collapseWsAux fuel (rest.dropWhile pyIsSpace)
    else c :: collapseWsAux fuel rest

/-- `re.sub(r"\s+", " ", s)` (see `collapseWsAux`; fuel of the input
length is exact). -/
def collapseWs (s : List Char) : List Char := collapseWsAux s.length s

/-- `_clean_filename_component`.  `replace("/", "")` deletes every slash
and `replace("|", " ")` maps bars to spaces (single-character `replace`
is a per-character transformation). -/
def cleanFilenameComponent (text : List Char) : List Char :=
  let c1 := pyStrip (stripTagSuffix text)
  let c2 := c1.filter (fun c => c ≠ '/')
  let c3 := c2.map (fun c => if c = '|' then ' ' else c)
  let c4 := pyStrip (collapseWs c3)
  stripTrailingFilenamePunct c4

/-- `build_filename_title_from_title_line`. -/
def buildFilenameTitleFromTitleLine (titleLine : List Char) : List Char :=
  let cjkPar := lastCjkParenthetical (parenMatches titleLine)
  let source :=
    match cjkPar with
    | some p => p
    | none => cleanTitleForDisplay titleLine
  let pe :=
    match splitFirst (str " - ") source with
    | some (p, e) => (pyStrip p, pyStrip e)
    | none => splitProgramTitle source
  let program := cleanFilenameComponent pe.1
  let episode := cleanFilenameComponent pe.2
  if program ≠ [] ∧ episode ≠ [] ∧ program ≠ episode then
    pyStrip (program ++ ' ' :: episode)
  else
    pyStrip (if program ≠ [] then program else episode)

/-- Python `str.split()` with no argument: split on whitespace runs,
dropping empty pieces. -/
def pySplitAux : Nat → List Char → List (List Char)
  | _, [] => []
  | 0, _ => []
  | fuel + 1, c :: rest =>
    if pyIsSpace c then pySplitAux fuel rest
    else
      ((c :: rest).takeWhile (fun x => !pyIsSpace x)) ::
        pySplitAux fuel (rest.dropWhile (fun x => !pyIsSpace x))

/-- Python `str.split()` with no argument (see `pySplitAux`; fuel of the
input length is exact). -/
def pySplit (s : List Char) : List (List Char) := pySplitAux s.length s

/-- `word[:1].upper() + word[1:]` (ASCII upper-casing, see header). -/
def upperFirst : List Char → List Char
  | [] => []
  | c :: rest => c.toUpper :: rest

/-- `_normalize_hashtag`. -/
def normalizeHashtag (text : List Char) (pascalCase : Bool) : List Char :=
  let stripped := stripQuotes text
  if isCjk stripped then
    stripped.filter (fun ch => pyIsAlnum ch || isCJKChar ch)
  else
    let cleaned := stripped.map (fun ch => if pyIsAlnum ch then ch else ' ')
    let words := pySplit cleaned
    if pascalCase then (words.map upperFirst).flatten
    else words.flatten

/-- The `tags` accumulation loop of `_build_hashtags`: drop an empty tag;
drop a tag equal to the last accepted one. -/
def buildTags (program title : List Char) (pascalCase : Bool) :
    List (List Char) :=
  [normalizeHashtag program pascalCase,
   normalizeHashtag title pascalCase].foldl
    (fun tags tag =>
      if tag = [] then tags
      else if tags.getLast? = some tag then tags
      else tags ++ [tag])
    []

/-- `" ".join(f"#{tag}" for tag in tags)`. -/
def renderHashtags (tags : List (List Char)) : List Char :=
  List.intercalate (str " ") (tags.map (fun tag => '#' :: tag))

/-- `_build_hashtags`. -/
def buildHashtags (program title : List Char) (pascalCase : Bool) :
    List Char :=
  renderHashtags (buildTags program title pascalCase)

/-- `build_hashtags_from_title_line`. -/
def buildHashtagsFromTitleLine (titleLine : List Char) :
    List Char × List Char :=
  let display := cleanTitleForDisplay titleLine
  let cjkPar := lastCjkParenthetical (parenMatches display)
  let enSource := stripParenthetical display
  let en := splitProgramTitle enSource
  let hashtagsEn := buildHashtags en.1 en.2 true
  let zh :=
    match cjkPar with
    | some p => splitProgramTitle p
    | none => splitProgramTitle display
  let hashtagsZh := buildHashtags zh.1 zh.2 false
  (hashtagsEn, hashtagsZh)

/-- Greedy `\d{1,2}` field of the date patterns: one or two ASCII digits
and the remaining input.  The following context in both patterns is `/`
or end-of-string, never a digit, so maximal munch is exact. -/
def grabDigits2 : List Char → Option (Nat × List Char)
  | [] => none
  | d1 :: rest =>
    if isDigitChar d1 then
      match rest with
      | d2 :: rest2 =>
        if isDigitChar d2 then
          some ((d1.toNat - 48) * 10 + (d2.toNat - 48), rest2)
        else some (d1.toNat - 48, rest)
      | [] => some (d1.toNat - 48, [])
    else none

/-- `YYMD_DATE_RE = ^(\d{2})/(\d{1,2})/(\d{1,2})$` via `re.match`,
returning the three `int(...)` field values. -/
def matchYYMD : List Char → Option (Nat × Nat × Nat)
  | y1 :: y2 :: c :: rest =>
    if isDigitChar y1 && isDigitChar y2 && c = '/' then
      match grabDigits2 rest with
      | some (mm, rest2) =>
        match rest2 with
        | '/' :: rest3 =>
          match grabDigits2 rest3 with
          | some (dd, rest4) =>
            if rest4 = [] then
              some ((y1.toNat - 48) * 10 + (y2.toNat - 48), mm, dd)
            else none
          | none => none
        | _ => none
      | none => none
    else none
  | _ => none

/-- `MD_DATE_RE = ^(\d{1,2})/(\d{1,2})$` via `re.match`. -/
def matchMD (s : List Char) : Option (Nat × Nat) :=
  match grabDigits2 s with
  | some (mm, rest) =>
    match rest with
    | '/' :: rest2 =>
      match grabDigits2 rest2 with
      | some (dd, rest3) => if rest3 = [] then some (mm, dd) else none
      | none => none
    | _ => none
  | none => none

/-- Python `f"{n:02d}"` for a non-negative value: zero-pad to two digits
(every call site in `_parse_date_prefix` passes a value below 100, so the
general branch is never reached there). -/
def fmt02 (n : Nat) : List Char :=
  if n < 10 then ['0', Nat.digitChar n]
  else if n < 100 then [Nat.digitChar (n / 10), Nat.digitChar (n % 10)]
  else Nat.toDigits 10 n

/-- `_parse_date_prefix`. -/
def parseDatePrefix (text : List Char) (defaultYear : Option Int) :
    Option (List Char) :=
  let stripped := pyStrip text
  match matchYYMD stripped with
  | some (yy, mm, dd) =>
    if 1 ≤ mm ∧ mm ≤ 12 ∧ 1 ≤ dd ∧ dd ≤ 31 then
      some (fmt02 yy ++ fmt02 mm ++ fmt02 dd)
    else none
  | none =>
    match matchMD stripped with
    | some (mm, dd) =>
      match defaultYear with
      | some y =>
        if 1 ≤ mm ∧ mm ≤ 12 ∧ 1 ≤ dd ∧ dd ≤ 31 then
          some (fmt02 (y % 100).toNat ++ fmt02 mm ++ fmt02 dd)
        else none
      | none => none
    | none => none

/-- `PROGRAM_SECTION_RE = ^節目.*則` via `re.match` (`.` excludes the
newline character). -/
def progSectionMatch (line : List Char) : Bool :=
  match line with
  | c1 :: c2 :: rest =>
    c1 = '節' && c2 = '目' && (rest.takeWhile (fun c => c ≠ '\n')).contains '則'
  | _ => false

/-- `STOP_SECTION_RE = ^(?:-+|FB小編文|本周節日)` via `re.match`. -/
def stopSectionMatch (line : List Char) : Bool :=
  (match line with
   | c :: _ => c = '-'
   | [] => false) ||
  (str "FB小編文").isPrefixOf line || (str "本周節日").isPrefixOf line

/-- `PERSON_LINE_RE = ^\d+\.\s*(\S+)` via `re.match`, returning the
captured token.  `\d+` cannot be shortened (the character after a shorter
run is a digit, not `.`), and `\s*`/`\S+` are likewise deterministic. -/
def personLineMatch (line : List Char) : Option (List Char) :=
  let ds := line.takeWhile isDigitChar
  if ds.isEmpty then none
  else
    match line.drop ds.length with
    | '.' :: rest =>
      let tok := (rest.dropWhile pyIsSpace).takeWhile (fun c => !pyIsSpace c)
      if tok.isEmpty then none else some tok
    | _ => none

/-- Membership in `ALEX_REF_LABELS`. -/
def isRefLabel (l : List Char) : Bool :=
  l == str "參考資料:" || l == str "參考資料："

/-- Membership in `ALEX_VIDEO_LABELS`. -/
def isVideoLabel (l : List Char) : Bool :=
  l == str "要用的影片:" || l == str "要用的影片："

/-- The two input dialects. -/
inductive ScheduleFormat
  | schedule
  | blocks
deriving DecidableEq, Repr

/-- `_detect_schedule_format`. -/
def detectScheduleFormat (lines : List (List Char)) : ScheduleFormat :=
  if lines.any progSectionMatch then .schedule
  else if (lines.any fun l => isRefLabel (pyStrip l)) &&
      (lines.any fun l => isVideoLabel (pyStrip l)) then .blocks
  else .schedule

/-- One extracted post record (the entry dict of `generate_posts.py`).
The description fields exist only on the blocks path and the prefix
override only when a date was resolved, hence the `Option`s. -/
structure PostEntry where
  filename_title : List Char
  header_title : List Char
  header_url : List Char
  header_url_target : List Char
  video_url : List Char
  video_url_target : List Char
  video_title : List Char
  video_desc_en : Option (List Char)
  video_desc_zh : Option (List Char)
  ref_url : List Char
  ref_url_target : List Char
  ref_title : List Char
  hashtags_en : List Char
  hashtags_zh : List Char
  filename_prefix_override : Option (List Char)
deriving DecidableEq, Repr

/-- `url_targets[i].strip() if ... and url_targets[i] else ""`: Python
truthiness (a recorded, non-empty target) followed by `strip`. -/
def truthyStripTarget : Option (List Char) → List Char
  | some t => if t = [] then [] else pyStrip t
  | none => []

/-- `_extract_reference(lines, url_targets, start_idx)`, expressed on the
suffixes `lines.drop start_idx` / `url_targets.drop start_idx` (the scan
only reads positions `≥ start_idx`). -/
def extractReference :
    List (List Char) → List (Option (List Char)) →
    List Char × List Char × List Char
  | [], _ => ([], [], [])
  | line :: rest, targets =>
    if (personLineMatch line).isSome || stopSectionMatch line then
      ([], [], [])
    else if pyStrip line == str "搭配" then
      let refUrl := rest.head?.getD []
      let refUrlTarget := truthyStripTarget ((targets.drop 1).head?.getD none)
      let refTitle := (rest.drop 1).head?.getD []
      (refUrl, refTitle, refUrlTarget)
    else extractReference rest (targets.drop 1)

/-- The entry dict built for an accepted `alex` marker on the schedule
path (`rtt` is `_extract_reference`'s `(ref_url, ref_title,
ref_url_target)`; `url_target or ""` is `Option.getD []`, since a
recorded target is a non-empty string). -/
def mkSchedEntry (titleLine urlLine : List Char)
    (urlTarget : Option (List Char))
    (rtt : List Char × List Char × List Char) : PostEntry where
  filename_title := buildFilenameTitleFromTitleLine titleLine
  header_title := cleanTitleForDisplay titleLine
  header_url := urlLine
  header_url_target := urlTarget.getD []
  video_url := urlLine
  video_url_target := urlTarget.getD []
  video_title := cleanTitleForDisplay titleLine
  video_desc_en := none
  video_desc_zh := none
  ref_url := rtt.1
  ref_url_target := rtt.2.2
  ref_title := rtt.2.1
  hashtags_en := (buildHashtagsFromTitleLine titleLine).1
  hashtags_zh := (buildHashtagsFromTitleLine titleLine).2
  filename_prefix_override := none

/-- The `in_program_section` phase of `extract_post_entries`: walk the
remaining lines, stop at a stop-section line, emit one entry per `alex`
person marker. -/
def schedInSection :
    List (List Char) → List (Option (List Char)) → List PostEntry
  | [], _ => []
  | line :: rest, targets =>
    if stopSectionMatch line then []
    else
      match personLineMatch line with
      | none => schedInSection rest (targets.drop 1)
      | some tok =>
        let person := (pyStrip tok).map Char.toLower
        let tail := schedInSection rest (targets.drop 1)
        match rest with
        | [] => tail
        | titleLine :: rest2 =>
          if person == str "alex" then
            let urlLine0 := rest2.head?.getD []
            let urlTarget0 := (targets.drop 2).head?.getD none
            let resolved :=
              if (str "http").isPrefixOf urlLine0 then (urlLine0, urlTarget0)
              else ([], none)
            mkSchedEntry titleLine resolved.1 resolved.2
                (extractReference rest (targets.drop 1)) :: tail
          else tail

/-- The `BEFORE_SECTION` phase of `extract_post_entries`: skip lines until
the first program-section header. -/
def schedScan :
    List (List Char) → List (Option (List Char)) → List PostEntry
  | [], _ => []
  | line :: rest, targets =>
    if progSectionMatch line then schedInSection rest (targets.drop 1)
    else schedScan rest (targets.drop 1)

/-- `BLOCK_INDEX_RE = ^\d+\s*$` via `re.match` (maximal digits, then only
whitespace).  A shorter digit run is followed by a digit, which is not
whitespace, so maximal munch is exact. -/
def blockIndexMatch (s : List Char) : Bool :=
  let ds := s.takeWhile isDigitChar
  !ds.isEmpty && (s.drop ds.length).all pyIsSpace

/-- `BLOCK_INDEX_RE.match(line.strip())`. -/
def blockIndexLine (line : List Char) : Bool := blockIndexMatch (pyStrip line)

/-- The nine local accumulators of the per-block loop of
`extract_post_entries_from_blocks`. -/
structure BlockState where
  refUrl : List Char
  refTitle : List Char
  refUrlTarget : List Char
  datePrefix : List Char
  videoUrl : List Char
  videoUrlTarget : List Char
  videoTitle : List Char
  videoDescEn : List Char
  videoDescZh : List Char
deriving DecidableEq, Repr

/-- All accumulators start as `""`. -/
def initBlockState : BlockState :=
  ⟨[], [], [], [], [], [], [], [], []⟩

/-- Fuel-indexed scan for the next video label (see
`firstVideoLabelFrom`). -/
def firstVideoLabelFromAux (block : List (List Char)) : Nat → Nat → Nat
  | 0, _ => block.length
  | fuel + 1, i =>
    if i < block.length then
      if isVideoLabel (pyStrip (block.getD i [])) then i
      else firstVideoLabelFromAux block fuel (i + 1)
    else block.length

/-- `next((pos for pos in range(i, len(block)) if block[pos].strip() in
ALEX_VIDEO_LABELS), len(block))` (see `firstVideoLabelFromAux`; the fuel
`block.length - i` is exact: it reaches `0` only once `i` is past the
end, where the scan's answer is `len(block)` anyway). -/
def firstVideoLabelFrom (block : List (List Char)) (i : Nat) : Nat :=
  firstVideoLabelFromAux block (block.length - i) i

/-- The body of `for idx, line in enumerate(block)` in
`extract_post_entries_from_blocks`: a reference label fills the reference
fields (URL, optional date, newline-joined multi-line title); a video
label fills the video fields from the next four lines, each only when
present. -/
def blockStep (block : List (List Char)) (btargets : List (Option (List Char)))
    (defaultYear : Int) (st : BlockState) (idxLine : Nat × List Char) :
    BlockState :=
  let idx := idxLine.1
  let label := pyStrip idxLine.2
  if isRefLabel label then
    let st1 :=
      if idx + 1 < block.length then
        { st with refUrl := pyStrip (block.getD (idx + 1) []),
                  refUrlTarget := truthyStripTarget (btargets.getD (idx + 1) none) }
      else st
    let endRef := firstVideoLabelFrom block (idx + 1)
    let stc :=
      if idx + 2 < endRef then
        match parseDatePrefix (block.getD (idx + 2) []) (some defaultYear) with
        | some d =>
          if d ≠ [] then ({ st1 with datePrefix := d }, idx + 3)
          else (st1, idx + 2)
        | none => (st1, idx + 2)
      else (st1, idx + 2)
    if stc.2 < endRef then
      let refLines := ((block.drop stc.2).take (endRef - stc.2)).filterMap
        (fun t => if pyStrip t = [] then none else some (pyStrip t))
      { stc.1 with refTitle := List.intercalate (str "\n") refLines }
    else stc.1
  else if isVideoLabel label then
    let st1 :=
      if idx + 1 < block.length then
        { st with videoUrl := pyStrip (block.getD (idx + 1) []),
                  videoUrlTarget := truthyStripTarget (btargets.getD (idx + 1) none) }
      else st
    let st2 :=
      if idx + 2 < block.length then
        { st1 with videoTitle := pyStrip (block.getD (idx + 2) []) }
      else st1
    let st3 :=
      if idx + 3 < block.length then
        { st2 with videoDescEn := pyStrip (block.getD (idx + 3) []) }
      else st2
    if idx + 4 < block.length then
      { st3 with videoDescZh := pyStrip (block.getD (idx + 4) []) }
    else st3
  else st

/-- The whole per-block loop. -/
def blockScan (block : List (List Char)) (btargets : List (Option (List Char)))
    (defaultYear : Int) : BlockState :=
  block.enum.foldl (blockStep block btargets defaultYear) initBlockState

/-- The entry dict built from a finished block scan. -/
def mkBlockEntry (st : BlockState) : PostEntry where
  filename_title := buildFilenameTitleFromTitleLine st.videoTitle
  header_title := cleanTitleForDisplay st.videoTitle
  header_url := st.videoUrl
  header_url_target := st.videoUrlTarget
  video_url := st.videoUrl
  video_url_target := st.videoUrlTarget
  video_title := cleanTitleForDisplay st.videoTitle
  video_desc_en := some st.videoDescEn
  video_desc_zh := some st.videoDescZh
  ref_url := st.refUrl
  ref_url_target := st.refUrlTarget
  ref_title := st.refTitle
  hashtags_en := (buildHashtagsFromTitleLine st.videoTitle).1
  hashtags_zh := (buildHashtagsFromTitleLine st.videoTitle).2
  filename_prefix_override :=
    if st.datePrefix ≠ [] then some (st.datePrefix ++ str "_") else none

/-- `block_starts`: the indices of block-marker lines, collected by
`enumerate`. -/
def blockStarts (lines : List (List Char)) : List Nat :=
  lines.enum.filterMap
    (fun il => if blockIndexLine il.2 then some il.1 else none)

/-- One iteration of the `for pos, start_idx in enumerate(block_starts)`
loop: the slice from this block marker to the next (or the document end),
skipped when it holds at most the marker itself or resolves no video
title. -/
def blockEntryAt (lines : List (List Char)) (targets : List (Option (List Char)))
    (defaultYear : Int) (starts : List Nat) (pos startIdx : Nat) :
    Option PostEntry :=
  let endIdx := if pos + 1 < starts.length then starts.getD (pos + 1) 0
                else lines.length
  if endIdx - startIdx ≤ 1 then none
  else
    let block := (lines.drop startIdx).take (endIdx - startIdx)
    let btargets := (targets.drop startIdx).take (endIdx - startIdx)
    let st := blockScan block btargets defaultYear
    if st.videoTitle = [] then none else some (mkBlockEntry st)

/-- `extract_post_entries_from_blocks`, as a function of the loaded line
sequence and of `date.today().year`. -/
def extractPostEntriesFromBlocks (lines : List (List Char))
    (targets : List (Option (List Char))) (defaultYear : Int) :
    List PostEntry :=
  let starts := blockStarts lines
  starts.enum.filterMap
    (fun ps => blockEntryAt lines targets defaultYear starts ps.1 ps.2)

/-- `extract_post_entries`: detect the dialect, then run the matching
extractor. -/
def extractPostEntries (lines : List (List Char))
    (targets : List (Option (List Char))) (defaultYear : Int) :
    List PostEntry :=
  match detectScheduleFormat lines with
  | .blocks => extractPostEntriesFromBlocks lines targets defaultYear
  | .schedule => schedScan lines targets

/-- The render-time hyperlink target resolution of
`replace_placeholders`: `hyperlink_targets.get(placeholder) or value`
falls back to the displayed text when the stored target is empty. -/
def resolveHyperlinkTarget (stored value : List Char) : List Char :=
  if stored = [] then value else stored

/-! ### Concrete inputs used by the claims -/

/-- The schedule line sequence of the spec's worked example. -/
def exampleScheduleLines : List (List Char) :=
  [str "節目6則",
   str "1. elijah",
   str "節目甲 - 測試標題 em/el",
   str "https://x/1",
   str "2. alex",
   str "大愛醫生館 - 怎麼坐才算有\"坐相\"？st/rc",
   str "https://x/2",
   str "--------------------------------"]

/-- A target side-channel with no recorded hyperlink targets. -/
def noTargets (n : Nat) : List (Option (List Char)) := List.replicate n none

/-- The single entry the example schedule yields. -/
def exampleScheduleEntry : PostEntry where
  filename_title := str "大愛醫生館 怎麼坐才算有\"坐相\""
  header_title := str "大愛醫生館 - 怎麼坐才算有\"坐相\"？"
  header_url := str "https://x/2"
  header_url_target := []
  video_url := str "https://x/2"
  video_url_target := []
  video_title := str "大愛醫生館 - 怎麼坐才算有\"坐相\"？"
  video_desc_en := none
  video_desc_zh := none
  ref_url := []
  ref_url_target := []
  ref_title := []
  hashtags_en := str "#大愛醫生館 #怎麼坐才算有坐相"
  hashtags_zh := str "#大愛醫生館 #怎麼坐才算有坐相"
  filename_prefix_override := none

/-- A blocks-format document whose video title line `em/el` is non-empty
but cleans to the empty string. -/
def blocksEmptyTitleLines : List (List Char) :=
  [str "1", str "參考資料:", str "https://r",
   str "要用的影片:", str "https://v", str "em/el"]

/-- A blocks-format document with no title line after the video URL. -/
def blocksMissingTitleLines : List (List Char) :=
  [str "1", str "參考資料:", str "https://r",
   str "要用的影片:", str "https://v"]

/-- A schedule-format document whose title line cleans to the empty
string. -/
def scheduleEmptyTitleLines : List (List Char) :=
  [str "節目1則", str "1. alex", str "em/el", str "----"]

/-- A blocks-format document with an implied-year `1/27` reference date,
whose extracted prefix therefore depends on the current year. -/
def blocksDateLines : List (List Char) :=
  [str "1", str "參考資料:", str "https://r", str "1/27", str "ref title",
   str "要用的影片:", str "https://v", str "Title - Ep"]

/-- Forget the date-prefix accumulator. -/
def eraseDate (st : BlockState) : BlockState := { st with datePrefix := [] }

/-- Forget the filename-prefix override of an entry. -/
def eraseOverride (e : PostEntry) : PostEntry :=
  { e with filename_prefix_override := none }

/-! ### The checked-indexing model of the extraction core

Every Python list subscript of the extractors is replayed through an
`Except`-valued indexing operation that raises `IndexError` exactly when
Python would; C8 states that the checked run always returns `Except.ok`
of the pure model's output. -/

/-- Checked Python list indexing: `l[i]` raises `IndexError` when `i` is
out of range. -/
def pyIdx {α : Type} (l : List α) (i : Nat) : Except String α :=
  match l[i]? with
  | some x => Except.ok x
  | none => Except.error "IndexError"

/-- A guarded read `l[i] if i < len(l) else default`: the bounds check of
the source, then checked indexing. -/
def pyIdxOr {α : Type} (l : List α) (i : Nat) (d : α) : Except String α :=
  if i < l.length then pyIdx l i else pure d

/-- `url_targets[i].strip() if i < len(url_targets) and url_targets[i]
else ""` with checked indexing. -/
def pyTargetOr (targets : List (Option (List Char))) (i : Nat) :
    Except String (List Char) :=
  if i < targets.length then do
    let t ← pyIdx targets i
    pure (truthyStripTarget t)
  else pure []

/-- `_extract_reference` with every list subscript routed through checked
indexing, exactly as the Python loop performs it. -/
def extractReferenceChk (lines : List (List Char))
    (urlTargets : List (Option (List Char))) (idx : Nat) :
    Except String (List Char × List Char × List Char) :=
  if h : idx < lines.length then do
    let line ← pyIdx lines idx
    if (personLineMatch line).isSome || stopSectionMatch line then
      pure ([], [], [])
    else if pyStrip line == str "搭配" then do
      let refUrl ← pyIdxOr lines (idx + 1) []
      let refUrlTarget ← pyTargetOr urlTargets (idx + 1)
      let refTitle ← pyIdxOr lines (idx + 2) []
      pure (refUrl, refTitle, refUrlTarget)
    else extractReferenceChk lines urlTargets (idx + 1)
  else pure ([], [], [])
termination_by lines.length - idx
decreasing_by omega

/-- The single `for idx, line in enumerate(lines)` loop of
`extract_post_entries` (schedule path) with its `in_program_section`
flag, every subscript routed through checked indexing. -/
def schedChkGo (lines : List (List Char))
    (targets : List (Option (List Char))) (idx : Nat) (inSection : Bool) :
    Except String (List PostEntry) :=
  if _h : idx < lines.length then do
    let line ← pyIdx lines idx
    if !inSection then
      if progSectionMatch line then schedChkGo lines targets (idx + 1) true
      else schedChkGo lines targets (idx + 1) false
    else if stopSectionMatch line then pure []
    else
      match personLineMatch line with
      | none => schedChkGo lines targets (idx + 1) true
      | some tok =>
        if idx + 1 ≥ lines.length then schedChkGo lines targets (idx + 1) true
        else do
          let titleLine ← pyIdx lines (idx + 1)
          let urlLine0 ← pyIdxOr lines (idx + 2) []
          let urlTarget0 ← pyIdxOr targets (idx + 2) none
          let rest ← schedChkGo lines targets (idx + 1) true
          if (pyStrip tok).map Char.toLower == str "alex" then do
            let rtt ← extractReferenceChk lines targets (idx + 1)
            let resolved :=
              if (str "http").isPrefixOf urlLine0 then (urlLine0, urlTarget0)
              else ([], none)
            pure (mkSchedEntry titleLine resolved.1 resolved.2 rtt :: rest)
          else pure rest
  else pure []
termination_by lines.length - idx
decreasing_by all_goals omega

/-- Checked scan for the next video label: the generator subscripts
`block[pos]` only for `pos` inside `range(i, len(block))`. -/
def firstVideoLabelFromChkAux (block : List (List Char)) :
    Nat → Nat → Except String Nat
  | 0, _ => pure block.length
  | fuel + 1, i =>
    if i < block.length then do
      let l ← pyIdx block i
      if isVideoLabel (pyStrip l) then pure i
      else firstVideoLabelFromChkAux block fuel (i + 1)
    else pure block.length

/-- `end_ref` of the reference branch, checked. -/
def firstVideoLabelFromChk (block : List (List Char)) (i : Nat) :
    Except String Nat :=
  firstVideoLabelFromChkAux block (block.length - i) i

/-- The guarded reference-URL read of the blocks loop: the bound is
`len(block)`, while `block_targets` is then subscripted unchecked. -/
def refReadChk (block : List (List Char))
    (btargets : List (Option (List Char))) (idx : Nat) (st : BlockState) :
    Except String BlockState :=
  if idx + 1 < block.length then do
    let u ← pyIdx block (idx + 1)
    let t ← pyIdx btargets (idx + 1)
    pure { st with refUrl := pyStrip u, refUrlTarget := truthyStripTarget t }
  else pure st

/-- The guarded video-URL read of the blocks loop, same shape as the
reference one. -/
def vidReadChk (block : List (List Char))
    (btargets : List (Option (List Char))) (idx : Nat) (st : BlockState) :
    Except String BlockState :=
  if idx + 1 < block.length then do
    let u ← pyIdx block (idx + 1)
    let t ← pyIdx btargets (idx + 1)
    pure { st with videoUrl := pyStrip u,
                   videoUrlTarget := truthyStripTarget t }
  else pure st

/-- A guarded `block[j].strip()` field update of the video branch. -/
def lineReadChk (block : List (List Char)) (j : Nat) (st : BlockState)
    (f : BlockState → List Char → BlockState) : Except String BlockState :=
  if j < block.length then do
    let u ← pyIdx block j
    pure (f st (pyStrip u))
  else pure st

/-- The `cursor` advance of the reference branch: `block[cursor]` is read
only when `cursor < end_ref`, and `end_ref ≤ len(block)`. -/
def dateReadChk (block : List (List Char)) (defaultYear : Int)
    (endRef idx : Nat) (st : BlockState) : Except String (BlockState × Nat) :=
  if idx + 2 < endRef then do
    let dline ← pyIdx block (idx + 2)
    pure
      (match parseDatePrefix dline (some defaultYear) with
       | some d =>
         if d ≠ [] then ({ st with datePrefix := d }, idx + 3)
         else (st, idx + 2)
       | none => (st, idx + 2))
  else pure (st, idx + 2)

/-- The body of the per-block loop with every subscript routed through
checked indexing, exactly as the Python loop performs it. -/
def blockStepChk (block : List (List Char))
    (btargets : List (Option (List Char))) (defaultYear : Int)
    (st : BlockState) (idxLine : Nat × List Char) :
    Except String BlockState :=
  let idx := idxLine.1
  let label := pyStrip idxLine.2
  if isRefLabel label then do
    let st1 ← refReadChk block btargets idx st
    let endRef ← firstVideoLabelFromChk block (idx + 1)
    let stc ← dateReadChk block defaultYear endRef idx st1
    if stc.2 < endRef then
      let refLines := ((block.drop stc.2).take (endRef - stc.2)).filterMap
        (fun t => if pyStrip t = [] then none else some (pyStrip t))
      pure { stc.1 with refTitle := List.intercalate (str "\n") refLines }
    else pure stc.1
  else if isVideoLabel label then do
    let st1 ← vidReadChk block btargets idx st
    let st2 ← lineReadChk block (idx + 2) st1
      (fun s v => { s with videoTitle := v })
    let st3 ← lineReadChk block (idx + 3) st2
      (fun s v => { s with videoDescEn := v })
    lineReadChk block (idx + 4) st3 (fun s v => { s with videoDescZh := v })
  else pure st

/-- The whole per-block loop, checked. -/
def blockScanChk (block : List (List Char))
    (btargets : List (Option (List Char))) (defaultYear : Int) :
    Except String BlockState :=
  block.enum.foldlM (blockStepChk block btargets defaultYear) initBlockState

/-- `block_starts[pos + 1] if pos + 1 < len(block_starts) else len(lines)`
with checked indexing. -/
def endIdxChk (lines : List (List Char)) (starts : List Nat) (pos : Nat) :
    Except String Nat :=
  if pos + 1 < starts.length then pyIdx starts (pos + 1)
  else pure lines.length

/-- One iteration of the `for pos, start_idx in enumerate(block_starts)`
loop, checked. -/
def blockEntryAtChk (lines : List (List Char))
    (targets : List (Option (List Char))) (defaultYear : Int)
    (starts : List Nat) (pos startIdx : Nat) :
    Except String (Option PostEntry) := do
  let endIdx ← endIdxChk lines starts pos
  if endIdx - startIdx ≤ 1 then pure none
  else do
    let st ← blockScanChk ((lines.drop startIdx).take (endIdx - startIdx))
      ((targets.drop startIdx).take (endIdx - startIdx)) defaultYear
    if st.videoTitle = [] then pure none
    else pure (some (mkBlockEntry st))

/-- `extract_post_entries_from_blocks`, checked: the entry accumulation
loop with its guarded slice bounds. -/
def extractBlocksChk (lines : List (List Char))
    (targets : List (Option (List Char))) (defaultYear : Int) :
    Except String (List PostEntry) :=
  (blockStarts lines).enum.foldlM
    (fun acc ps => do
      let e ← blockEntryAtChk lines targets defaultYear (blockStarts lines)
        ps.1 ps.2
      pure (acc ++ e.toList))
    []

/-- `extract_post_entries` with all subscripts checked: dialect
detection, then the matching checked extractor. -/
def extractPostEntriesChk (lines : List (List Char))
    (targets : List (Option (List Char))) (defaultYear : Int) :
    Except String (List PostEntry) :=
  match detectScheduleFormat lines with
  | .blocks => extractBlocksChk lines targets defaultYear
  | .schedule => schedChkGo lines targets 0 false

/-! ### Lemmas about the Python string primitives -/

lemma rdropWhile_append_all_left (p : Char → Bool) (w A : List Char)
    (hw : ∀ x ∈ w, p x) :
    List.rdropWhile p (w ++ A) =
      if (List.rdropWhile p A).isEmpty then [] else w ++ List.rdropWhile p A := by
  have hwnil : w.reverse.dropWhile p = [] := by
    rw [List.dropWhile_eq_nil_iff]
    intro x hx
    exact hw x (List.mem_reverse.mp hx)
  unfold List.rdropWhile
  rw [List.reverse_append, List.dropWhile_append]
  by_cases hA : A.reverse.dropWhile p = []
  · simp [hA, hwnil]
  · simp [hA]

lemma dropWhile_rdropWhile_dropWhile (p : Char → Bool) (l : List Char) :
    (List.rdropWhile p (l.dropWhile p)).dropWhile p =
      List.rdropWhile p (l.dropWhile p) := by
  have hpre := List.rdropWhile_prefix (p := p) (l := l.dropWhile p)
  match hB : List.rdropWhile p (l.dropWhile p) with
  | [] => rfl
  | c :: t =>
    rw [hB] at hpre
    obtain ⟨tail, htail⟩ := hpre
    have hhead := List.head?_dropWhile_not p l
    rw [← htail] at hhead
    simp only [List.cons_append, List.head?_cons] at hhead
    exact List.dropWhile_cons_of_neg (by simp [hhead])

lemma dropWhile_rdropWhile (p : Char → Bool) (l : List Char) :
    (List.rdropWhile p l).dropWhile p = List.rdropWhile p (l.dropWhile p) := by
  conv_lhs => rw [← List.takeWhile_append_dropWhile (p := p) (l := l)]
  rw [rdropWhile_append_all_left p _ _ (fun x hx => List.mem_takeWhile_imp hx)]
  split
  · rename_i h
    rw [List.isEmpty_iff] at h
    rw [List.dropWhile_nil, h]
  · rw [List.dropWhile_append]
    have hwnil : (List.takeWhile p l).dropWhile p = [] := by
      rw [List.dropWhile_eq_nil_iff]
      intro x hx
      exact List.mem_takeWhile_imp hx
    rw [hwnil]
    simp only [List.isEmpty_nil, if_true]
    exact dropWhile_rdropWhile_dropWhile p l

lemma pyStrip_rdropWhile (l : List Char) :
    pyStrip (List.rdropWhile pyIsSpace l) = pyStrip l := by
  unfold pyStrip
  rw [dropWhile_rdropWhile, List.rdropWhile_idempotent]

lemma pyStrip_dropWhile (l : List Char) :
    pyStrip (l.dropWhile pyIsSpace) = pyStrip l := by
  unfold pyStrip
  rw [List.dropWhile_idempotent]

lemma pyStrip_idem (l : List Char) : pyStrip (pyStrip l) = pyStrip l := by
  have h1 : pyStrip (pyStrip l) =
      pyStrip (List.rdropWhile pyIsSpace (l.dropWhile pyIsSpace)) := rfl
  rw [h1, pyStrip_rdropWhile, pyStrip_dropWhile]

lemma cleanTitleForDisplay_stripped (s : List Char) :
    pyStrip (cleanTitleForDisplay s) = cleanTitleForDisplay s := by
  unfold cleanTitleForDisplay
  exact pyStrip_idem _

lemma not_mem_replListAux_slash :
    ∀ (fuel : Nat) (s : List Char), s.length ≤ fuel →
      '/' ∉ replListAux '/' [] [] fuel s := by
  intro fuel
  induction fuel with
  | zero =>
    intro s hs
    have : s = [] := List.length_eq_zero.mp (Nat.le_zero.mp hs)
    subst this
    simp [replListAux]
  | succ fuel ih =>
    intro s hs
    match s with
    | [] => simp [replListAux]
    | c :: rest =>
      simp only [List.length_cons, Nat.succ_le_succ_iff] at hs
      rw [replListAux]
      split
      · rename_i h
        simpa using ih rest (by simpa using hs)
      · rename_i h
        simp only [List.mem_cons]
        rintro (hc | hm)
        · exact h ⟨hc.symm, by simp [List.isPrefixOf]⟩
        · exact ih rest hs hm

lemma not_mem_replList_slash (s : List Char) : '/' ∉ replList '/' [] [] s :=
  not_mem_replListAux_slash s.length s (Nat.le_refl _)

lemma normalizeTitle_no_slash (s : List Char) : '/' ∉ normalizeTitle s := by
  simp only [normalizeTitle]
  exact not_mem_replList_slash _

lemma isTagSuffix_mem_slash {l : List Char} (h : isTagSuffix l = true) :
    '/' ∈ l := by
  simp only [isTagSuffix] at h
  split at h
  · rename_i r heq
    have h1 : '/' ∈ (l.dropWhile pyIsSpace).drop
        ((l.dropWhile pyIsSpace).takeWhile isAsciiLetter).length := by
      rw [heq]
      exact List.mem_cons_self _ _
    exact (List.dropWhile_sublist _).subset (List.mem_of_mem_drop h1)
  · exact absurd h (by simp)

lemma stripTagSuffix_eq_self {s : List Char} (h : '/' ∉ s) :
    stripTagSuffix s = s := by
  induction s with
  | nil => rfl
  | cons c rest ih =>
    rw [stripTagSuffix, if_neg, ih (fun hm => h (List.mem_cons_of_mem _ hm))]
    intro htag
    exact h (isTagSuffix_mem_slash htag)

lemma replListAux_eq_self {o : Char} {os new : List Char} :
    ∀ (fuel : Nat) (s : List Char), splitFirst (o :: os) s = none →
      replListAux o os new fuel s = s := by
  intro fuel
  induction fuel with
  | zero =>
    intro s _
    match s with
    | [] => rfl
    | c :: rest => rfl
  | succ fuel ih =>
    intro s h
    match s with
    | [] => rfl
    | c :: rest =>
      rw [splitFirst] at h
      split at h
      · exact absurd h (by simp)
      · rename_i hpre
        rw [Option.map_eq_none'] at h
        rw [replListAux]
        split
        · rename_i hc
          exfalso
          apply hpre
          simp only [List.isPrefixOf, Bool.and_eq_true, beq_iff_eq]
          exact ⟨hc.1.symm, hc.2⟩
        · rw [ih rest h]

lemma replList_eq_self {o : Char} {os new s : List Char}
    (h : splitFirst (o :: os) s = none) : replList o os new s = s :=
  replListAux_eq_self s.length s h

lemma splitFirst_single_none {o : Char} {s : List Char} (h : o ∉ s) :
    splitFirst [o] s = none := by
  induction s with
  | nil => rfl
  | cons c rest ih =>
    rw [splitFirst, if_neg, ih (fun hm => h (List.mem_cons_of_mem _ hm)),
        Option.map_none']
    simp only [List.isPrefixOf, Bool.and_eq_true, beq_iff_eq]
    rintro ⟨hoc, -⟩
    exact h (hoc ▸ List.mem_cons_self _ _)

/-! ### C6: idempotence of `normalize_title` -/

/-- C6 counterexample: `normalize_title` is *not* idempotent.  On
`"a - - b"` the single `str.replace(" - ", " ")` pass rewrites the first
occurrence and then resumes scanning after it, leaving the freshly formed
`" - "` (`"a - b"`) intact; a second application removes it (`"a b"`). -/
theorem claim_C6_cex :
    normalizeTitle (normalizeTitle (str "a - - b")) ≠
      normalizeTitle (str "a - - b") := by decide

/-- C6 (amended): `normalize_title` is idempotent on every input whose
normalized form contains no `" - "` substring and carries no leading or
trailing whitespace.  (The original claim fails precisely when one of
these two post-conditions fails: a replacement can splice a new `" - "`
out of overlapping occurrences, and deleting `/` characters can expose
fresh boundary whitespace.) -/
theorem claim_C6 (s : List Char)
    (h1 : containsSub (str " - ") (normalizeTitle s) = false)
    (h2 : pyStrip (normalizeTitle s) = normalizeTitle s) :
    normalizeTitle (normalizeTitle s) = normalizeTitle s := by
  have hslash : '/' ∉ normalizeTitle s := normalizeTitle_no_slash s
  have hsf : splitFirst (' ' :: str "- ") (normalizeTitle s) = none := by
    have h0 : (splitFirst (str " - ") (normalizeTitle s)).isSome = false := h1
    rw [show (' ' :: str "- ") = str " - " from rfl]
    cases hv : splitFirst (str " - ") (normalizeTitle s) with
    | none => rfl
    | some v => rw [hv] at h0; simp at h0
  have hunf : normalizeTitle (normalizeTitle s) =
      replList '/' [] []
        (pyStrip (stripTagSuffix
          (pyStrip (replList ' ' (str "- ") (str " ") (normalizeTitle s))))) :=
    rfl
  rw [hunf, replList_eq_self hsf, h2, stripTagSuffix_eq_self hslash, h2,
      replList_eq_self (splitFirst_single_none hslash)]

/-- Witness for C6 at `"abc - def"`. -/
theorem claim_C6_witness :
    containsSub (str " - ") (normalizeTitle (str "abc - def")) = false ∧
    pyStrip (normalizeTitle (str "abc - def")) =
      normalizeTitle (str "abc - def") ∧
    normalizeTitle (normalizeTitle (str "abc - def")) =
      normalizeTitle (str "abc - def") :=
  ⟨by decide, by decide, claim_C6 (str "abc - def") (by decide) (by decide)⟩

/-! ### C2: the date prefix resolver -/

lemma grabDigits2_lt {s : List Char} {v : Nat} {rest : List Char}
    (h : grabDigits2 s = some (v, rest)) : v < 100 := by
  match s with
  | [] => simp [grabDigits2] at h
  | d1 :: r =>
    simp only [grabDigits2] at h
    split at h
    · rename_i hd1
      simp only [isDigitChar, Bool.and_eq_true, decide_eq_true_eq] at hd1
      split at h
      · rename_i d2 rest2
        split at h
        · rename_i hd2
          simp only [isDigitChar, Bool.and_eq_true, decide_eq_true_eq] at hd2
          simp only [Option.some.injEq, Prod.mk.injEq] at h
          omega
        · simp only [Option.some.injEq, Prod.mk.injEq] at h
          omega
      · simp only [Option.some.injEq, Prod.mk.injEq] at h
        omega
    · exact absurd h (by simp)

lemma matchYYMD_yy_lt {s : List Char} {yy mm dd : Nat}
    (h : matchYYMD s = some (yy, mm, dd)) : yy < 100 := by
  match s with
  | [] => simp [matchYYMD] at h
  | [a] => simp [matchYYMD] at h
  | [a, b] => simp [matchYYMD] at h
  | y1 :: y2 :: c :: rest =>
    rw [matchYYMD] at h
    split at h
    · rename_i hd
      simp only [isDigitChar, Bool.and_eq_true, decide_eq_true_eq] at hd
      split at h
      · split at h
        · split at h
          · split at h
            · simp only [Option.some.injEq, Prod.mk.injEq] at h
              omega
            · exact absurd h (by simp)
          · exact absurd h (by simp)
        · exact absurd h (by simp)
      · exact absurd h (by simp)
    · exact absurd h (by simp)

lemma fmt02_length {n : Nat} (h : n < 100) : (fmt02 n).length = 2 := by
  unfold fmt02
  by_cases h1 : n < 10
  · rw [if_pos h1]
    rfl
  · rw [if_neg h1, if_pos h]
    rfl

/-- Everything `_parse_date_prefix` can return: a six-character
`YYMMDD` with each field zero-padded to two digits and the month/day in
range. -/
lemma parseDatePrefix_spec {text : List Char} {oy : Option Int}
    {r : List Char} (h : parseDatePrefix text oy = some r) :
    ∃ yy mm dd : Nat, yy < 100 ∧ 1 ≤ mm ∧ mm ≤ 12 ∧ 1 ≤ dd ∧ dd ≤ 31 ∧
      r = fmt02 yy ++ fmt02 mm ++ fmt02 dd ∧ r.length = 6 := by
  simp only [parseDatePrefix] at h
  split at h
  · rename_i yy mm dd hY
    split at h
    · rename_i hrange
      obtain ⟨hm1, hm2, hd1, hd2⟩ := hrange
      injection h with h
      have hylt : yy < 100 := matchYYMD_yy_lt hY
      refine ⟨yy, mm, dd, hylt, hm1, hm2, hd1, hd2, h.symm, ?_⟩
      rw [← h]
      simp [List.length_append, fmt02_length hylt, fmt02_length (by omega : mm < 100),
        fmt02_length (by omega : dd < 100)]
    · exact absurd h (by simp)
  · split at h
    · rename_i mm dd hMD
      split at h
      · rename_i ydup y
        split at h
        · rename_i hrange
          obtain ⟨hm1, hm2, hd1, hd2⟩ := hrange
          injection h with h
          have h1 : 0 ≤ y % 100 := Int.emod_nonneg y (by norm_num)
          have h2 : y % 100 < 100 := Int.emod_lt_of_pos y (by norm_num)
          have hylt : (y % 100).toNat < 100 := by omega
          refine ⟨(y % 100).toNat, mm, dd, hylt, hm1, hm2, hd1, hd2, h.symm, ?_⟩
          rw [← h]
          simp [List.length_append, fmt02_length hylt,
            fmt02_length (by omega : mm < 100), fmt02_length (by omega : dd < 100)]
        · exact absurd h (by simp)
      · exact absurd h (by simp)
    · exact absurd h (by simp)

/-- C2: the three cited evaluations of `parse_date_prefix` (including a
one-digit month with an explicit year and a one-digit day), plus the
general shape: a present result is always the six zero-padded characters
`YYMMDD` with month in 1–12 and day in 1–31; everything else is absent
(the function is total, so it never raises). -/
theorem claim_C2 :
    parseDatePrefix (str "26/1/23") (some 2025) = some (str "260123") ∧
    parseDatePrefix (str "1/20") (some 2026) = some (str "260120") ∧
    parseDatePrefix (str "13/45") (some 2026) = none ∧
    parseDatePrefix (str "26/12/3") none = some (str "261203") ∧
    ∀ (text : List Char) (oy : Option Int) (r : List Char),
      parseDatePrefix text oy = some r →
      ∃ yy mm dd : Nat, yy < 100 ∧ 1 ≤ mm ∧ mm ≤ 12 ∧ 1 ≤ dd ∧ dd ≤ 31 ∧
        r = fmt02 yy ++ fmt02 mm ++ fmt02 dd ∧ r.length = 6 :=
  ⟨by decide, by decide, by decide, by decide,
   fun _ _ _ h => parseDatePrefix_spec h⟩

/-- Witness for C2's universal part at `"9/9"` with year 2026. -/
theorem claim_C2_witness :
    parseDatePrefix (str "9/9") (some 2026) = some (str "260909") ∧
    (∃ yy mm dd : Nat, yy < 100 ∧ 1 ≤ mm ∧ mm ≤ 12 ∧ 1 ≤ dd ∧ dd ≤ 31 ∧
      str "260909" = fmt02 yy ++ fmt02 mm ++ fmt02 dd ∧
      (str "260909").length = 6) :=
  ⟨by decide,
   claim_C2.2.2.2.2 (str "9/9") (some 2026) (str "260909") (by decide)⟩

/-! ### C1: the worked schedule example -/

/-- C1: on the spec's schedule-format example (whatever the ambient year),
extraction yields exactly one entry — the one for the `alex` marker, whose
URL line is `https://x/2` — and its `filename_title` is
`大愛醫生館 怎麼坐才算有"坐相"` (translator tag and trailing `？`
stripped); the `elijah` marker contributes nothing. -/
theorem claim_C1 (y : Int) :
    extractPostEntries exampleScheduleLines (noTargets 8) y =
      [exampleScheduleEntry] ∧
    exampleScheduleEntry.filename_title =
      str "大愛醫生館 怎麼坐才算有\"坐相\"" ∧
    exampleScheduleEntry.video_url = str "https://x/2" := by
  refine ⟨?_, rfl, rfl⟩
  rfl

/-! ### C7: the empty-title policies of the two extractors -/

/-- C7 counterexample: the claim says a title that *cleans* to the empty
string makes the blocks extractor emit no entry.  In fact the blocks
extractor tests only the raw title line (`if not video_title`): for the
raw line `em/el` (non-empty, but display-cleaning removes it entirely as
a translator tag) it still emits an entry. -/
theorem claim_C7_cex :
    cleanTitleForDisplay (str "em/el") = [] ∧
    (extractPostEntries blocksEmptyTitleLines (noTargets 6) 0).length = 1 := by
  decide

/-- C7 (amended): the blocks extractor drops a block only when the *raw*
resolved video title is empty or missing — its drop test is the block
being at most the marker line, or the raw scanned title being the empty
string, never the cleaned title — and every emitted entry's display
title fields are the *cleaned* title, so a raw title that merely cleans
to empty still yields an entry with empty title fields; the schedule
extractor likewise emits, at every in-section alex marker with a
following title line, an entry whose display title fields are the
cleaned title, empty or not. -/
theorem claim_C7 :
    (∀ (lines : List (List Char)) (targets : List (Option (List Char)))
        (y : Int) (starts : List Nat) (pos si endIdx : Nat),
      endIdx = (if pos + 1 < starts.length then starts.getD (pos + 1) 0
                else lines.length) →
      blockEntryAt lines targets y starts pos si =
        (if endIdx - si ≤ 1 ∨
            (blockScan ((lines.drop si).take (endIdx - si))
              ((targets.drop si).take (endIdx - si)) y).videoTitle = [] then
          none
        else
          some (mkBlockEntry (blockScan ((lines.drop si).take (endIdx - si))
            ((targets.drop si).take (endIdx - si)) y)))) ∧
    (∀ st : BlockState,
      (mkBlockEntry st).header_title = cleanTitleForDisplay st.videoTitle ∧
      (mkBlockEntry st).video_title = cleanTitleForDisplay st.videoTitle) ∧
    (∀ (line titleLine : List Char) (rest2 : List (List Char))
        (targets : List (Option (List Char))) (tok : List Char),
      stopSectionMatch line = false →
      personLineMatch line = some tok →
      ((pyStrip tok).map Char.toLower == str "alex") = true →
      ∃ e tail,
        schedInSection (line :: titleLine :: rest2) targets = e :: tail ∧
        e.header_title = cleanTitleForDisplay titleLine ∧
        e.video_title = cleanTitleForDisplay titleLine) := by
  refine ⟨?_, ?_, ?_⟩
  · intro lines targets y starts pos si endIdx hE
    subst hE
    simp only [blockEntryAt]
    generalize (if pos + 1 < starts.length then starts.getD (pos + 1) 0
      else lines.length) = E
    by_cases h1 : E - si ≤ 1
    · rw [if_pos h1, if_pos (Or.inl h1)]
    · rw [if_neg h1]
      by_cases h2 : (blockScan ((lines.drop si).take (E - si))
          ((targets.drop si).take (E - si)) y).videoTitle = []
      · rw [if_pos h2, if_pos (Or.inr h2)]
      · rw [if_neg h2, if_neg (not_or.mpr ⟨h1, h2⟩)]
  · intro st
    exact ⟨rfl, rfl⟩
  · intro line titleLine rest2 targets tok hs hp halex
    simp only [schedInSection, hs, hp, Bool.false_eq_true, if_false]
    rw [if_pos halex]
    exact ⟨_, _, rfl, rfl, rfl⟩

/-- Witness for C7: the blocks characterization at the `em/el` document
(entry emitted from the cleaned-to-empty raw title), and the schedule
emission at a concrete alex marker whose title cleans to empty. -/
theorem claim_C7_witness :
    (6 = (if 0 + 1 < (blockStarts blocksEmptyTitleLines).length
          then (blockStarts blocksEmptyTitleLines).getD (0 + 1) 0
          else blocksEmptyTitleLines.length) ∧
     blockEntryAt blocksEmptyTitleLines (noTargets 6) 0
        (blockStarts blocksEmptyTitleLines) 0 0 =
      (if 6 - 0 ≤ 1 ∨
          (blockScan ((blocksEmptyTitleLines.drop 0).take (6 - 0))
            (((noTargets 6).drop 0).take (6 - 0)) 0).videoTitle = [] then
        none
      else
        some (mkBlockEntry
          (blockScan ((blocksEmptyTitleLines.drop 0).take (6 - 0))
            (((noTargets 6).drop 0).take (6 - 0)) 0)))) ∧
    (stopSectionMatch (str "1. alex") = false ∧
     personLineMatch (str "1. alex") = some (str "alex") ∧
     ((pyStrip (str "alex")).map Char.toLower == str "alex") = true ∧
     ∃ e tail,
       schedInSection (str "1. alex" :: str "em/el" :: []) (noTargets 2) =
         e :: tail ∧
       e.header_title = cleanTitleForDisplay (str "em/el") ∧
       e.video_title = cleanTitleForDisplay (str "em/el")) :=
  ⟨⟨by decide,
    claim_C7.1 blocksEmptyTitleLines (noTargets 6) 0
      (blockStarts blocksEmptyTitleLines) 0 0 6 (by decide)⟩,
   ⟨by decide, by decide, by decide,
    claim_C7.2.2 (str "1. alex") (str "em/el") [] (noTargets 2)
      (str "alex") (by decide) (by decide) (by decide)⟩⟩

/-! ### Entry-shape lemmas for the two extractors -/

/-- Every entry the in-section schedule walk emits is a `mkSchedEntry`. -/
lemma schedInSection_mem {P : PostEntry → Prop}
    (hP : ∀ t u ut rtt, P (mkSchedEntry t u ut rtt)) :
    ∀ (L : List (List Char)) (T : List (Option (List Char))) (e : PostEntry),
      e ∈ schedInSection L T → P e := by
  intro L
  induction L with
  | nil =>
    intro T e he
    simp [schedInSection] at he
  | cons line rest ih =>
    intro T e he
    simp only [schedInSection] at he
    split at he
    · simp at he
    · split at he
      · exact ih _ e he
      · split at he
        · exact ih _ e he
        · split at he
          · rcases List.mem_cons.mp he with h1 | h1
            · rw [h1]; exact hP _ _ _ _
            · exact ih _ e h1
          · exact ih _ e he

/-- Every entry the schedule extractor emits is a `mkSchedEntry`. -/
lemma schedScan_mem {P : PostEntry → Prop}
    (hP : ∀ t u ut rtt, P (mkSchedEntry t u ut rtt)) :
    ∀ (L : List (List Char)) (T : List (Option (List Char))) (e : PostEntry),
      e ∈ schedScan L T → P e := by
  intro L
  induction L with
  | nil =>
    intro T e he
    simp [schedScan] at he
  | cons line rest ih =>
    intro T e he
    simp only [schedScan] at he
    split at he
    · exact schedInSection_mem hP _ _ e he
    · exact ih _ e he

/-- A present result of `blockEntryAt` is the `mkBlockEntry` of the scan
of a parallel slice of the two input lists. -/
lemma blockEntryAt_some {lines : List (List Char)}
    {targets : List (Option (List Char))} {y : Int} {starts : List Nat}
    {pos startIdx : Nat} {e : PostEntry}
    (h : blockEntryAt lines targets y starts pos startIdx = some e) :
    ∃ a b : Nat, e = mkBlockEntry
      (blockScan ((lines.drop a).take b) ((targets.drop a).take b) y) := by
  simp only [blockEntryAt] at h
  split at h
  · split at h
    · exact absurd h (by simp)
    · split at h
      · exact absurd h (by simp)
      · injection h with h
        exact ⟨_, _, h.symm⟩
  · split at h
    · exact absurd h (by simp)
    · split at h
      · exact absurd h (by simp)
      · injection h with h
        exact ⟨_, _, h.symm⟩

/-- Every entry the blocks extractor emits is a `mkBlockEntry`. -/
lemma extractBlocks_mem {P : PostEntry → Prop}
    (hP : ∀ st : BlockState, P (mkBlockEntry st))
    (lines : List (List Char)) (targets : List (Option (List Char)))
    (y : Int) (e : PostEntry)
    (he : e ∈ extractPostEntriesFromBlocks lines targets y) : P e := by
  simp only [extractPostEntriesFromBlocks] at he
  rw [List.mem_filterMap] at he
  obtain ⟨ps, -, hps⟩ := he
  obtain ⟨a, b, hst⟩ := blockEntryAt_some hps
  rw [hst]
  exact hP _

/-! ### C10: header link fields copy the video link fields -/

/-- C10: in every emitted entry, from the schedule walk, the blocks
extractor and the dispatching entry point alike, `header_url` equals
`video_url` and `header_url_target` equals `video_url_target`. -/
theorem claim_C10 (lines : List (List Char))
    (targets : List (Option (List Char))) (y : Int) :
    (∀ e ∈ schedScan lines targets,
      e.header_url = e.video_url ∧
        e.header_url_target = e.video_url_target) ∧
    (∀ e ∈ extractPostEntriesFromBlocks lines targets y,
      e.header_url = e.video_url ∧
        e.header_url_target = e.video_url_target) ∧
    (∀ e ∈ extractPostEntries lines targets y,
      e.header_url = e.video_url ∧
        e.header_url_target = e.video_url_target) := by
  have hs := schedScan_mem
    (P := fun e => e.header_url = e.video_url ∧
      e.header_url_target = e.video_url_target)
    (fun t u ut rtt => ⟨rfl, rfl⟩) lines targets
  have hb := fun e he => extractBlocks_mem
    (P := fun e => e.header_url = e.video_url ∧
      e.header_url_target = e.video_url_target)
    (fun st => ⟨rfl, rfl⟩) lines targets y e he
  refine ⟨fun e he => hs e he, hb, fun e he => ?_⟩
  unfold extractPostEntries at he
  split at he
  · exact hb e he
  · exact hs e he

/-- Witness for C10 on the worked schedule example. -/
theorem claim_C10_witness :
    exampleScheduleEntry.header_url = exampleScheduleEntry.video_url ∧
    exampleScheduleEntry.header_url_target =
      exampleScheduleEntry.video_url_target :=
  (claim_C10 exampleScheduleLines (noTargets 8) 0).1
    exampleScheduleEntry (by decide)

/-! ### C5: stored link targets when the side channel is empty -/

lemma allNone_drop {T : List (Option (List Char))}
    (h : ∀ t ∈ T, t = none) (n : Nat) : ∀ t ∈ T.drop n, t = none :=
  fun t ht => h t (List.mem_of_mem_drop ht)

lemma allNone_getElemD {T : List (Option (List Char))}
    (h : ∀ t ∈ T, t = none) (i : Nat) : T[i]?.getD none = none := by
  cases hv : T[i]? with
  | none => rfl
  | some t =>
    have := h t (List.getElem?_mem hv)
    simp [this]

lemma allNone_headD {T : List (Option (List Char))}
    (h : ∀ t ∈ T, t = none) : T.head?.getD none = none := by
  cases T with
  | nil => rfl
  | cons a rest =>
    have := h a (List.mem_cons_self a rest)
    simp [this]

lemma truthyStripTarget_none : truthyStripTarget none = [] := rfl

lemma extractReference_target_none :
    ∀ (L : List (List Char)) (T : List (Option (List Char))),
      (∀ t ∈ T, t = none) → (extractReference L T).2.2 = [] := by
  intro L
  induction L with
  | nil => intro T _; rfl
  | cons line rest ih =>
    intro T h
    simp only [extractReference]
    split
    · rfl
    · split
      · have h1 : (List.drop 1 T).head?.getD none = none :=
          allNone_headD (allNone_drop h 1)
        simp only [h1]
        rfl
      · exact ih _ (allNone_drop h 1)

lemma schedInSection_targets_none :
    ∀ (L : List (List Char)) (T : List (Option (List Char))),
      (∀ t ∈ T, t = none) →
      ∀ e ∈ schedInSection L T,
        e.header_url_target = [] ∧ e.video_url_target = [] ∧
          e.ref_url_target = [] := by
  intro L
  induction L with
  | nil =>
    intro T _ e he
    simp [schedInSection] at he
  | cons line rest ih =>
    intro T h e he
    simp only [schedInSection] at he
    split at he
    · simp at he
    · split at he
      · exact ih _ (allNone_drop h 1) e he
      · split at he
        · exact ih _ (allNone_drop h 1) e he
        · rename_i titleLine rest2
          split at he
          · rcases List.mem_cons.mp he with h1 | h1
            · subst h1
              have ht0 : (List.drop 2 T).head?.getD none = none :=
                allNone_headD (allNone_drop h 2)
              have href := extractReference_target_none (titleLine :: rest2)
                (List.drop 1 T) (allNone_drop h 1)
              simp only [mkSchedEntry, ht0, href]
              split <;> simp
            · exact ih _ (allNone_drop h 1) e h1
          · exact ih _ (allNone_drop h 1) e he

lemma schedScan_targets_none :
    ∀ (L : List (List Char)) (T : List (Option (List Char))),
      (∀ t ∈ T, t = none) →
      ∀ e ∈ schedScan L T,
        e.header_url_target = [] ∧ e.video_url_target = [] ∧
          e.ref_url_target = [] := by
  intro L
  induction L with
  | nil =>
    intro T _ e he
    simp [schedScan] at he
  | cons line rest ih =>
    intro T h e he
    simp only [schedScan] at he
    split at he
    · exact schedInSection_targets_none _ _ (allNone_drop h 1) e he
    · exact ih _ (allNone_drop h 1) e he

lemma blockStep_targets_none {block : List (List Char)}
    {btargets : List (Option (List Char))} {y : Int} {st : BlockState}
    {il : Nat × List Char} (hT : ∀ t ∈ btargets, t = none)
    (h1 : st.refUrlTarget = []) (h2 : st.videoUrlTarget = []) :
    (blockStep block btargets y st il).refUrlTarget = [] ∧
      (blockStep block btargets y st il).videoUrlTarget = [] := by
  have hgd : ∀ i, truthyStripTarget (btargets.getD i none) = [] := by
    intro i
    rw [List.getD_eq_getElem?_getD, allNone_getElemD hT i]
    rfl
  simp only [blockStep]
  repeat' split
  all_goals simp_all [hgd]

lemma allNone_take {T : List (Option (List Char))}
    (h : ∀ t ∈ T, t = none) (n : Nat) : ∀ t ∈ T.take n, t = none :=
  fun t ht => h t (List.mem_of_mem_take ht)

lemma blockScan_targets_none {block : List (List Char)}
    {btargets : List (Option (List Char))} {y : Int}
    (hT : ∀ t ∈ btargets, t = none) :
    (blockScan block btargets y).refUrlTarget = [] ∧
      (blockScan block btargets y).videoUrlTarget = [] := by
  unfold blockScan
  suffices hinv : ∀ (l : List (Nat × List Char)) (st : BlockState),
      st.refUrlTarget = [] → st.videoUrlTarget = [] →
      (l.foldl (blockStep block btargets y) st).refUrlTarget = [] ∧
        (l.foldl (blockStep block btargets y) st).videoUrlTarget = [] by
    exact hinv _ initBlockState rfl rfl
  intro l
  induction l with
  | nil => intro st a b; exact ⟨a, b⟩
  | cons a l ih =>
    intro st a1 a2
    have hstep := @blockStep_targets_none block btargets y st a hT a1 a2
    exact ih _ hstep.1 hstep.2

lemma extractBlocks_targets_none {lines : List (List Char)}
    {targets : List (Option (List Char))} {y : Int}
    (hT : ∀ t ∈ targets, t = none) :
    ∀ e ∈ extractPostEntriesFromBlocks lines targets y,
      e.header_url_target = [] ∧ e.video_url_target = [] ∧
        e.ref_url_target = [] := by
  intro e he
  simp only [extractPostEntriesFromBlocks] at he
  rw [List.mem_filterMap] at he
  obtain ⟨ps, -, hps⟩ := he
  obtain ⟨a, b, hst⟩ := blockEntryAt_some hps
  have hTn : ∀ t ∈ (targets.drop a).take b, t = none :=
    allNone_take (allNone_drop hT a) b
  have hsc := @blockScan_targets_none ((lines.drop a).take b)
    ((targets.drop a).take b) y hTn
  rw [hst]
  exact ⟨hsc.2, hsc.2, hsc.1⟩

/-- C5 (amended): when the Line Source records no hyperlink target, the
emitted entry stores the *empty string* in
`header_url_target`/`video_url_target`/`ref_url_target`; the fall-back to
the displayed URL happens only at render time, where
`replace_placeholders` resolves each hyperlink target as
`stored or displayed` (`resolveHyperlinkTarget`), which then indeed
equals the displayed URL text. -/
theorem claim_C5 (lines : List (List Char))
    (targets : List (Option (List Char))) (y : Int)
    (hT : ∀ t ∈ targets, t = none) :
    ∀ e ∈ extractPostEntries lines targets y,
      (e.header_url_target = [] ∧ e.video_url_target = [] ∧
        e.ref_url_target = []) ∧
      resolveHyperlinkTarget e.header_url_target e.header_url =
        e.header_url ∧
      resolveHyperlinkTarget e.video_url_target e.video_url = e.video_url ∧
      resolveHyperlinkTarget e.ref_url_target e.ref_url = e.ref_url := by
  intro e he
  have hmain : e.header_url_target = [] ∧ e.video_url_target = [] ∧
      e.ref_url_target = [] := by
    unfold extractPostEntries at he
    split at he
    · exact extractBlocks_targets_none hT e he
    · exact schedScan_targets_none _ _ hT e he
  obtain ⟨h1, h2, h3⟩ := hmain
  refine ⟨⟨h1, h2, h3⟩, ?_, ?_, ?_⟩
  · simp [resolveHyperlinkTarget, h1]
  · simp [resolveHyperlinkTarget, h2]
  · simp [resolveHyperlinkTarget, h3]

/-- Witness for C5 on the worked schedule example. -/
theorem claim_C5_witness :
    (exampleScheduleEntry.header_url_target = [] ∧
      exampleScheduleEntry.video_url_target = [] ∧
      exampleScheduleEntry.ref_url_target = []) ∧
    resolveHyperlinkTarget exampleScheduleEntry.header_url_target
      exampleScheduleEntry.header_url = exampleScheduleEntry.header_url ∧
    resolveHyperlinkTarget exampleScheduleEntry.video_url_target
      exampleScheduleEntry.video_url = exampleScheduleEntry.video_url ∧
    resolveHyperlinkTarget exampleScheduleEntry.ref_url_target
      exampleScheduleEntry.ref_url = exampleScheduleEntry.ref_url :=
  claim_C5 exampleScheduleLines (noTargets 8) 0 (by decide)
    exampleScheduleEntry (by decide)

/-- C5 counterexample: in the worked example no side-channel target is
recorded and the displayed video URL is `https://x/2`, yet the emitted
entry's `video_url_target` is the *empty string*, not the displayed URL —
entry target fields do not default to the displayed text. -/
theorem claim_C5_cex :
    (extractPostEntries exampleScheduleLines (noTargets 8) 0).map
      (fun e => (e.video_url, e.video_url_target)) =
        [(str "https://x/2", [])] ∧
    str "https://x/2" ≠ ([] : List Char) := by decide

/-! ### C9: dependence on the ambient date -/

lemma parseDatePrefix_isSome_year (s : List Char) (y1 y2 : Int) :
    (parseDatePrefix s (some y1)).isSome =
      (parseDatePrefix s (some y2)).isSome := by
  simp only [parseDatePrefix]
  cases hY : matchYYMD (pyStrip s) with
  | some v => rfl
  | none =>
    cases hMD : matchMD (pyStrip s) with
    | some v =>
      obtain ⟨mm, dd⟩ := v
      by_cases hr : 1 ≤ mm ∧ mm ≤ 12 ∧ 1 ≤ dd ∧ dd ≤ 31 <;>
        simp [hr]
    | none => rfl

lemma parseDatePrefix_some_ne_nil {text : List Char} {oy : Option Int}
    {r : List Char} (h : parseDatePrefix text oy = some r) : r ≠ [] := by
  obtain ⟨yy, mm, dd, -, -, -, -, -, -, hlen⟩ := parseDatePrefix_spec h
  intro hr
  rw [hr] at hlen
  simp at hlen

set_option maxHeartbeats 1000000 in
lemma blockStep_year {block : List (List Char)}
    {btargets : List (Option (List Char))} {y1 y2 : Int}
    {s1 s2 : BlockState} {il : Nat × List Char}
    (he : eraseDate s1 = eraseDate s2)
    (hd : s1.datePrefix = [] ↔ s2.datePrefix = []) :
    eraseDate (blockStep block btargets y1 s1 il) =
      eraseDate (blockStep block btargets y2 s2 il) ∧
    ((blockStep block btargets y1 s1 il).datePrefix = [] ↔
      (blockStep block btargets y2 s2 il).datePrefix = []) := by
  have hrU : s1.refUrl = s2.refUrl := by
    simpa [eraseDate] using congrArg BlockState.refUrl he
  have hrT : s1.refTitle = s2.refTitle := by
    simpa [eraseDate] using congrArg BlockState.refTitle he
  have hrUT : s1.refUrlTarget = s2.refUrlTarget := by
    simpa [eraseDate] using congrArg BlockState.refUrlTarget he
  have hvU : s1.videoUrl = s2.videoUrl := by
    simpa [eraseDate] using congrArg BlockState.videoUrl he
  have hvUT : s1.videoUrlTarget = s2.videoUrlTarget := by
    simpa [eraseDate] using congrArg BlockState.videoUrlTarget he
  have hvT : s1.videoTitle = s2.videoTitle := by
    simpa [eraseDate] using congrArg BlockState.videoTitle he
  have hvE : s1.videoDescEn = s2.videoDescEn := by
    simpa [eraseDate] using congrArg BlockState.videoDescEn he
  have hvZ : s1.videoDescZh = s2.videoDescZh := by
    simpa [eraseDate] using congrArg BlockState.videoDescZh he
  simp only [blockStep]
  cases hlab : isRefLabel (pyStrip il.2) with
  | false =>
    cases hvlab : isVideoLabel (pyStrip il.2) with
    | false => simp_all [eraseDate, BlockState.mk.injEq]
    | true =>
      repeat' split
      all_goals (try omega)
      all_goals simp_all [eraseDate, BlockState.mk.injEq]
  | true =>
    by_cases hcur : il.1 + 2 < firstVideoLabelFrom block (il.1 + 1)
    · rw [if_pos hcur, if_pos hcur]
      rcases hp1 : parseDatePrefix (block.getD (il.1 + 2) []) (some y1) with
        _ | d1 <;>
        rcases hp2 : parseDatePrefix (block.getD (il.1 + 2) []) (some y2) with
          _ | d2
      · simp only [hp1, hp2]
        repeat' split
        all_goals (try omega)
        all_goals simp_all [eraseDate, BlockState.mk.injEq]
      · have hpar := parseDatePrefix_isSome_year (block.getD (il.1 + 2) []) y1 y2
        rw [hp1, hp2] at hpar
        simp at hpar
      · have hpar := parseDatePrefix_isSome_year (block.getD (il.1 + 2) []) y1 y2
        rw [hp1, hp2] at hpar
        simp at hpar
      · have hne1 := parseDatePrefix_some_ne_nil hp1
        have hne2 := parseDatePrefix_some_ne_nil hp2
        simp only [hp1, hp2]
        rw [if_pos hne1, if_pos hne2]
        repeat' split
        all_goals (try omega)
        all_goals simp_all [eraseDate, BlockState.mk.injEq]
    · rw [if_neg hcur, if_neg hcur]
      repeat' split
      all_goals (try omega)
      all_goals simp_all [eraseDate, BlockState.mk.injEq]

lemma blockScan_year {block : List (List Char)}
    {btargets : List (Option (List Char))} {y1 y2 : Int} :
    eraseDate (blockScan block btargets y1) =
      eraseDate (blockScan block btargets y2) ∧
    ((blockScan block btargets y1).datePrefix = [] ↔
      (blockScan block btargets y2).datePrefix = []) := by
  unfold blockScan
  suffices hinv : ∀ (l : List (Nat × List Char)) (s1 s2 : BlockState),
      eraseDate s1 = eraseDate s2 → (s1.datePrefix = [] ↔ s2.datePrefix = []) →
      eraseDate (l.foldl (blockStep block btargets y1) s1) =
        eraseDate (l.foldl (blockStep block btargets y2) s2) ∧
      ((l.foldl (blockStep block btargets y1) s1).datePrefix = [] ↔
        (l.foldl (blockStep block btargets y2) s2).datePrefix = []) by
    exact hinv _ _ _ rfl Iff.rfl
  intro l
  induction l with
  | nil => intro s1 s2 he hd; exact ⟨he, hd⟩
  | cons a l ih =>
    intro s1 s2 he hd
    obtain ⟨he2, hd2⟩ := @blockStep_year block btargets y1 y2 s1 s2 a he hd
    exact ih _ _ he2 hd2

lemma mkBlockEntry_eraseDate {s1 s2 : BlockState}
    (he : eraseDate s1 = eraseDate s2) :
    eraseOverride (mkBlockEntry s1) = eraseOverride (mkBlockEntry s2) := by
  have hrU : s1.refUrl = s2.refUrl := by
    simpa [eraseDate] using congrArg BlockState.refUrl he
  have hrT : s1.refTitle = s2.refTitle := by
    simpa [eraseDate] using congrArg BlockState.refTitle he
  have hrUT : s1.refUrlTarget = s2.refUrlTarget := by
    simpa [eraseDate] using congrArg BlockState.refUrlTarget he
  have hvU : s1.videoUrl = s2.videoUrl := by
    simpa [eraseDate] using congrArg BlockState.videoUrl he
  have hvUT : s1.videoUrlTarget = s2.videoUrlTarget := by
    simpa [eraseDate] using congrArg BlockState.videoUrlTarget he
  have hvT : s1.videoTitle = s2.videoTitle := by
    simpa [eraseDate] using congrArg BlockState.videoTitle he
  have hvE : s1.videoDescEn = s2.videoDescEn := by
    simpa [eraseDate] using congrArg BlockState.videoDescEn he
  have hvZ : s1.videoDescZh = s2.videoDescZh := by
    simpa [eraseDate] using congrArg BlockState.videoDescZh he
  simp [mkBlockEntry, eraseOverride, PostEntry.mk.injEq, hrU, hrT, hrUT,
    hvU, hvUT, hvT, hvE, hvZ]

set_option maxHeartbeats 1000000 in
lemma blockEntryAt_year {lines : List (List Char)}
    {targets : List (Option (List Char))} {y1 y2 : Int} {starts : List Nat}
    {pos si : Nat} :
    (blockEntryAt lines targets y1 starts pos si).map eraseOverride =
      (blockEntryAt lines targets y2 starts pos si).map eraseOverride := by
  simp only [blockEntryAt]
  generalize (if pos + 1 < starts.length then starts.getD (pos + 1) 0
    else lines.length) - si = c
  by_cases h1 : c ≤ 1
  · rw [if_pos h1, if_pos h1]
  · rw [if_neg h1, if_neg h1]
    obtain ⟨hsc, hdp⟩ := @blockScan_year ((lines.drop si).take c)
      ((targets.drop si).take c) y1 y2
    have hvt : (blockScan ((lines.drop si).take c) ((targets.drop si).take c)
        y1).videoTitle =
        (blockScan ((lines.drop si).take c) ((targets.drop si).take c)
          y2).videoTitle := by
      simpa [eraseDate] using congrArg BlockState.videoTitle hsc
    by_cases h2 : (blockScan ((lines.drop si).take c)
        ((targets.drop si).take c) y1).videoTitle = []
    · rw [if_pos h2, if_pos (hvt ▸ h2)]
    · rw [if_neg h2, if_neg (hvt ▸ h2), Option.map_some', Option.map_some',
        mkBlockEntry_eraseDate hsc]

lemma extractBlocks_year (lines : List (List Char))
    (targets : List (Option (List Char))) (y1 y2 : Int) :
    (extractPostEntriesFromBlocks lines targets y1).map eraseOverride =
      (extractPostEntriesFromBlocks lines targets y2).map eraseOverride := by
  simp only [extractPostEntriesFromBlocks]
  rw [List.map_filterMap, List.map_filterMap]
  apply List.filterMap_congr
  intro ps hps
  exact blockEntryAt_year

/-- C9 (amended): extraction is a pure function of the line sequence
*and* the current year (`date.today().year`, read by the blocks
extractor): for a fixed year the run is deterministic, the year
influences nothing but `filename_prefix_override` (erasing that field
makes the outputs of any two years identical), and the schedule path is
date-independent. -/
theorem claim_C9 (lines : List (List Char))
    (targets : List (Option (List Char))) (y1 y2 : Int) :
    ((extractPostEntries lines targets y1).map eraseOverride =
      (extractPostEntries lines targets y2).map eraseOverride) ∧
    (detectScheduleFormat lines = ScheduleFormat.schedule →
      extractPostEntries lines targets y1 =
        extractPostEntries lines targets y2) := by
  constructor
  · unfold extractPostEntries
    cases detectScheduleFormat lines with
    | blocks => exact extractBlocks_year lines targets y1 y2
    | schedule => rfl
  · intro h
    unfold extractPostEntries
    rw [h]

/-- C9 counterexample: the blocks extractor is *not* a pure function of
the line sequence alone — the same document parsed in 2025 and 2026
yields different entry lists (the `1/27` reference date resolves to
`250127_` versus `260127_`). -/
theorem claim_C9_cex :
    extractPostEntries blocksDateLines (noTargets 8) 2025 ≠
      extractPostEntries blocksDateLines (noTargets 8) 2026 := by decide

/-- Witness for C9's schedule-path conjunct on the worked example. -/
theorem claim_C9_witness :
    extractPostEntries exampleScheduleLines (noTargets 8) 2025 =
      extractPostEntries exampleScheduleLines (noTargets 8) 2026 :=
  (claim_C9 exampleScheduleLines (noTargets 8) 2025 2026).2 (by decide)

/-! ### C3: hashtag list invariants -/

/-- C3: for any program/title strings and either casing mode, the
hashtag list `_build_hashtags` assembles never contains an empty tag and
never two identical consecutive tags, and the returned string is exactly
the surviving tags each prefixed with `#` and joined by single
spaces. -/
theorem claim_C3 (program title : List Char) (pascalCase : Bool) :
    (∀ tag ∈ buildTags program title pascalCase, tag ≠ []) ∧
    List.Chain' (fun a b => a ≠ b) (buildTags program title pascalCase) ∧
    buildHashtags program title pascalCase =
      renderHashtags (buildTags program title pascalCase) := by
  refine ⟨?_, ?_, rfl⟩ <;>
  · simp only [buildTags, List.foldl]
    by_cases ha : normalizeHashtag program pascalCase = [] <;>
      by_cases hb : normalizeHashtag title pascalCase = [] <;>
        by_cases hab : normalizeHashtag program pascalCase =
          normalizeHashtag title pascalCase <;>
          simp_all [List.Chain']

/-- Witness for C3's non-emptiness conjunct at `("a", "b")` in PascalCase
mode, where the tag list is `["A", "B"]`. -/
theorem claim_C3_witness : str "A" ≠ ([] : List Char) :=
  (claim_C3 (str "a") (str "b") true).1 (str "A") (by decide)

/-! ### C4: the program/episode split -/

lemma pyIsSpace_dash : pyIsSpace '-' = false := by decide

lemma rdropWhile_cons_of_not_all {p : Char → Bool} {c : Char}
    {x : List Char} (h : ¬(p c = true ∧ ∀ y ∈ x, p y = true)) :
    List.rdropWhile p (c :: x) = c :: List.rdropWhile p x := by
  unfold List.rdropWhile
  by_cases hall : ∀ y ∈ x, p y = true
  · have hc : ¬p c = true := fun hc => h ⟨hc, hall⟩
    have hxnil : x.reverse.dropWhile p = [] := by
      rw [List.dropWhile_eq_nil_iff]
      intro y hy
      exact hall y (List.mem_reverse.mp hy)
    have : (c :: x).reverse = x.reverse ++ [c] := by simp
    rw [this, List.dropWhile_append, hxnil]
    simp [hc]
  · have hxne : x.reverse.dropWhile p ≠ [] := by
      rw [Ne, List.dropWhile_eq_nil_iff]
      intro hcon
      exact hall (fun y hy => hcon y (List.mem_reverse.mpr hy))
    have : (c :: x).reverse = x.reverse ++ [c] := by simp
    rw [this, List.dropWhile_append]
    have hne : (x.reverse.dropWhile p).isEmpty = false := by
      simpa [List.isEmpty_iff] using hxne
    rw [hne]
    simp

lemma dropWhile_ne_dash_of_mem {rest : List Char} (h : '-' ∈ rest) :
    ∃ v, rest.dropWhile (fun c => !(c == '-')) = '-' :: v := by
  have hne : rest.dropWhile (fun c => !(c == '-')) ≠ [] := by
    rw [Ne, List.dropWhile_eq_nil_iff]
    intro hcon
    have := hcon '-' h
    simp at this
  cases hd : rest.dropWhile (fun c => !(c == '-')) with
  | nil => exact absurd hd hne
  | cons d v =>
    have hhead := List.head?_dropWhile_not (fun c => !(c == '-')) rest
    rw [hd] at hhead
    simp only [List.head?_cons] at hhead
    simp only [Bool.not_eq_false', beq_iff_eq] at hhead
    exact ⟨v, by rw [hhead]⟩

lemma reSplitDash1_cons (c : Char) (rest : List Char) :
    reSplitDash1 (c :: rest) =
      match (c :: rest).dropWhile pyIsSpace with
      | d :: u =>
        if d = '-' then some ([], u.dropWhile pyIsSpace)
        else (reSplitDash1 rest).map (fun pr => (c :: pr.1, pr.2))
      | [] => (reSplitDash1 rest).map (fun pr => (c :: pr.1, pr.2)) := rfl

set_option maxHeartbeats 2000000 in
lemma reSplitDash1_spec :
    ∀ (s : List Char), '-' ∈ s →
      reSplitDash1 s = some
        (List.rdropWhile pyIsSpace (s.takeWhile (fun c => !(c == '-'))),
         ((s.dropWhile (fun c => !(c == '-'))).drop 1).dropWhile pyIsSpace) := by
  intro s
  induction s with
  | nil => intro h; simp at h
  | cons c rest ih =>
    intro hmem
    rw [reSplitDash1_cons]
    cases hd : (c :: rest).dropWhile pyIsSpace with
    | nil =>
      exfalso
      have hall : ∀ x ∈ c :: rest, pyIsSpace x = true := by
        rw [← List.dropWhile_eq_nil_iff]
        exact hd
      have h2 := hall '-' hmem
      rw [pyIsSpace_dash] at h2
      exact Bool.false_ne_true h2
    | cons d u =>
      dsimp only
      by_cases hdash : d = '-'
      · subst hdash
        simp only [if_pos rfl]
        have hsplit : c :: rest =
            (c :: rest).takeWhile pyIsSpace ++ '-' :: u := by
          conv_lhs => rw [← List.takeWhile_append_dropWhile
            (p := pyIsSpace) (l := c :: rest)]
          rw [hd]
        have hwall : ∀ x ∈ (c :: rest).takeWhile pyIsSpace,
            pyIsSpace x = true := fun x hx => List.mem_takeWhile_imp hx
        have hwne : ∀ x ∈ (c :: rest).takeWhile pyIsSpace,
            (!(x == '-')) = true := by
          intro x hx
          have := hwall x hx
          simp only [Bool.not_eq_true', beq_eq_false_iff_ne, Ne]
          intro hxe
          rw [hxe, pyIsSpace_dash] at this
          exact Bool.false_ne_true this
        have htake : (c :: rest).takeWhile (fun c => !(c == '-')) =
            (c :: rest).takeWhile pyIsSpace := by
          conv_lhs => rw [hsplit]
          rw [List.takeWhile_append_of_pos hwne]
          simp
        have hdrop : (c :: rest).dropWhile (fun c => !(c == '-')) =
            '-' :: u := by
          conv_lhs => rw [hsplit]
          rw [List.dropWhile_append_of_pos hwne]
          simp
        rw [htake, hdrop]
        have hrd : List.rdropWhile pyIsSpace
            ((c :: rest).takeWhile pyIsSpace) = [] := by
          rw [List.rdropWhile_eq_nil_iff]
          exact hwall
        rw [hrd]
        simp
      · have hcne : c ≠ '-' := by
          intro hc
          subst hc
          rw [List.dropWhile_cons_of_neg (by rw [pyIsSpace_dash]; simp)] at hd
          injection hd with hd1 hd2
          exact hdash hd1.symm
        have hrmem : '-' ∈ rest := by
          rcases List.mem_cons.mp hmem with h1 | h1
          · exact absurd h1.symm hcne
          · exact h1
        rw [if_neg hdash, ih hrmem]
        have hpc : (!(c == '-')) = true := by
          simp only [Bool.not_eq_true', beq_eq_false_iff_ne, Ne]
          exact hcne
        have htk : (c :: rest).takeWhile (fun c => !(c == '-')) =
            c :: rest.takeWhile (fun c => !(c == '-')) :=
          List.takeWhile_cons_of_pos hpc
        have hdr : (c :: rest).dropWhile (fun c => !(c == '-')) =
            rest.dropWhile (fun c => !(c == '-')) :=
          List.dropWhile_cons_of_pos hpc
        have hnotall : ¬(pyIsSpace c = true ∧
            ∀ y ∈ rest.takeWhile (fun c => !(c == '-')), pyIsSpace y = true) := by
          rintro ⟨hwc, hall⟩
          obtain ⟨v, hv⟩ := dropWhile_ne_dash_of_mem hrmem
          have hrsplit : rest =
              rest.takeWhile (fun c => !(c == '-')) ++ '-' :: v := by
            conv_lhs => rw [← List.takeWhile_append_dropWhile
              (p := fun c => !(c == '-')) (l := rest)]
            rw [hv]
          have hthis : (c :: rest).dropWhile pyIsSpace = '-' :: v := by
            rw [List.dropWhile_cons_of_pos hwc, hrsplit,
              List.dropWhile_append_of_pos hall,
              List.dropWhile_cons_of_neg (by rw [pyIsSpace_dash]; simp)]
          rw [hthis] at hd
          injection hd with hd1 hd2
          exact hdash hd1.symm
        rw [htk, hdr, rdropWhile_cons_of_not_all hnotall]
        rfl

/-- C4: for every title string, `_split_program_title` behaves exactly as
described — if the tag-cleaned string contains `" - "`, it is split once
on the first occurrence; otherwise, if it contains a `-`, it is split at
the first `-` (each side stripped) exactly when both sides are non-empty
and at least one contains a space or a CJK character; otherwise the whole
cleaned string is returned as both program and episode.  (The regex
`\s*-\s*` split used by the code coincides, after stripping, with the
plain split at the first `-`: that is `reSplitDash1_spec`.) -/
theorem claim_C4 (titleLine : List Char) :
    splitProgramTitle titleLine =
      (let cleaned := cleanTitleForDisplay titleLine
       let l := pyStrip (cleaned.takeWhile (fun c => !(c == '-')))
       let r := pyStrip ((cleaned.dropWhile (fun c => !(c == '-'))).drop 1)
       if containsSub (str " - ") cleaned then
         match splitFirst (str " - ") cleaned with
         | some (p, t) => (pyStrip p, pyStrip t)
         | none => (cleaned, cleaned)
       else if cleaned.contains '-' then
         if l ≠ [] ∧ r ≠ [] ∧
             (l.contains ' ' ∨ r.contains ' ' ∨ isCjk l ∨ isCjk r) then
           (l, r)
         else (cleaned, cleaned)
       else (cleaned, cleaned)) := by
  simp only [splitProgramTitle]
  have hstr : pyStrip (cleanTitleForDisplay titleLine) =
      cleanTitleForDisplay titleLine := cleanTitleForDisplay_stripped titleLine
  cases hsf : splitFirst (str " - ") (cleanTitleForDisplay titleLine) with
  | some pr =>
    obtain ⟨p, t⟩ := pr
    have hcs : containsSub (str " - ") (cleanTitleForDisplay titleLine) = true := by
      simp [containsSub, hsf]
    simp [hcs, hsf]
  | none =>
    have hcs : containsSub (str " - ") (cleanTitleForDisplay titleLine) = false := by
      simp [containsSub, hsf]
    simp only [hcs, hsf, Bool.false_eq_true, if_false]
    by_cases hdash : (cleanTitleForDisplay titleLine).contains '-'
    · have hmem : '-' ∈ cleanTitleForDisplay titleLine := by
        simpa using hdash
      rw [reSplitDash1_spec _ hmem]
      have hl := pyStrip_rdropWhile
        ((cleanTitleForDisplay titleLine).takeWhile (fun c => !(c == '-')))
      have hr := pyStrip_dropWhile
        (((cleanTitleForDisplay titleLine).dropWhile
          (fun c => !(c == '-'))).drop 1)
      have hr2 := pyStrip_dropWhile
        (((cleanTitleForDisplay titleLine).dropWhile
          (fun c => !(c == '-'))).tail)
      simp [hdash, hmem, hl, hr, hr2, hstr]
    · have hnmem : '-' ∉ cleanTitleForDisplay titleLine := by
        simpa using hdash
      simp [hdash, hnmem, hstr]

/-! ### C8: totality of the extraction core -/

lemma pyIdx_ok {α : Type} {l : List α} {i : Nat} (h : i < l.length) :
    pyIdx l i = Except.ok (l.getD i (l.get ⟨i, h⟩)) := by
  simp [pyIdx, List.getElem?_eq_getElem h]

lemma ok_bind {ε α β : Type} (a : α) (f : α → Except ε β) :
    (Except.ok a >>= f) = f a := rfl

lemma head?_drop_getD {α : Type} (l : List α) (n : Nat) (d : α) :
    (l.drop n).head?.getD d = l[n]?.getD d := by
  rw [List.head?_eq_getElem?, List.getElem?_drop, Nat.add_zero]

lemma pyIdxOr_ok {α : Type} (l : List α) (i : Nat) (d : α) :
    pyIdxOr l i d = Except.ok (l[i]?.getD d) := by
  unfold pyIdxOr
  by_cases hb : i < l.length
  · rw [if_pos hb, List.getElem?_eq_getElem hb]
    simp [pyIdx, List.getElem?_eq_getElem hb]
  · rw [if_neg hb, List.getElem?_eq_none (by omega)]
    rfl

lemma pyTargetOr_ok (targets : List (Option (List Char))) (i : Nat) :
    pyTargetOr targets i =
      Except.ok (truthyStripTarget (targets[i]?.getD none)) := by
  unfold pyTargetOr
  by_cases hb : i < targets.length
  · have hp : pyIdx targets i = Except.ok targets[i] := by
      simp [pyIdx, List.getElem?_eq_getElem hb]
    rw [if_pos hb, hp, ok_bind, List.getElem?_eq_getElem hb]
    rfl
  · rw [if_neg hb, List.getElem?_eq_none (by omega)]
    rfl

/-- The checked reference scan never raises, and agrees with the pure
model on the corresponding suffixes. -/
lemma extractReferenceChk_ok (lines : List (List Char))
    (targets : List (Option (List Char))) :
    ∀ (n idx : Nat), lines.length - idx = n →
      extractReferenceChk lines targets idx =
        Except.ok (extractReference (lines.drop idx) (targets.drop idx)) := by
  intro n
  induction n with
  | zero =>
    intro idx hn
    rw [extractReferenceChk, dif_neg (by omega)]
    have hdrop : lines.drop idx = [] := List.drop_eq_nil_of_le (by omega)
    rw [hdrop]
    rfl
  | succ n ih =>
    intro idx hn
    have hlt : idx < lines.length := by omega
    rw [extractReferenceChk, dif_pos hlt]
    have hline : pyIdx lines idx = Except.ok lines[idx] := by
      simp [pyIdx, List.getElem?_eq_getElem hlt]
    rw [hline, ok_bind]
    rw [List.drop_eq_getElem_cons hlt]
    simp only [extractReference]
    by_cases h1 : ((personLineMatch lines[idx]).isSome ||
        stopSectionMatch lines[idx]) = true
    · rw [if_pos h1, if_pos h1]
      rfl
    · rw [if_neg h1, if_neg h1]
      by_cases h2 : (pyStrip lines[idx] == str "搭配") = true
      · rw [if_pos h2, if_pos h2,
          pyIdxOr_ok, ok_bind, pyTargetOr_ok, ok_bind, pyIdxOr_ok, ok_bind]
        rw [List.drop_drop, head?_drop_getD, head?_drop_getD,
          List.drop_drop, head?_drop_getD,
          show idx + 1 + 1 = idx + 2 from by omega]
        rfl
      · rw [if_neg h2, if_neg h2, List.drop_drop]
        exact ih (idx + 1) (by omega)

set_option maxRecDepth 4000 in
/-- The checked schedule walk never raises, and agrees with the pure
two-phase model on the corresponding suffixes. -/
lemma schedChkGo_ok (lines : List (List Char))
    (targets : List (Option (List Char))) :
    ∀ (n idx : Nat) (b : Bool), lines.length - idx = n →
      schedChkGo lines targets idx b =
        Except.ok
          (if b then schedInSection (lines.drop idx) (targets.drop idx)
           else schedScan (lines.drop idx) (targets.drop idx)) := by
  intro n
  induction n with
  | zero =>
    intro idx b hn
    rw [schedChkGo, dif_neg (by omega)]
    have hdrop : lines.drop idx = [] := List.drop_eq_nil_of_le (by omega)
    rw [hdrop]
    cases b <;> rfl
  | succ n ih =>
    intro idx b hn
    have hlt : idx < lines.length := by omega
    rw [schedChkGo, dif_pos hlt]
    have hline : pyIdx lines idx = Except.ok lines[idx] := by
      simp [pyIdx, List.getElem?_eq_getElem hlt]
    rw [hline, ok_bind]
    rw [List.drop_eq_getElem_cons hlt]
    cases b with
    | false =>
      simp only [Bool.not_false, if_pos]
      simp only [schedScan]
      by_cases hp : progSectionMatch lines[idx] = true
      · rw [if_pos hp, if_pos hp, ih (idx + 1) true (by omega),
          List.drop_drop]
        rfl
      · rw [if_neg hp, if_neg hp, ih (idx + 1) false (by omega),
          List.drop_drop]
        rfl
    | true =>
      simp only [Bool.not_true, Bool.false_eq_true, if_false]
      simp only [schedInSection]
      by_cases hs : stopSectionMatch lines[idx] = true
      · rw [if_pos hs, if_pos hs]
        rfl
      · rw [if_neg hs, if_neg hs]
        cases hper : personLineMatch lines[idx] with
        | none =>
          rw [ih (idx + 1) true (by omega), List.drop_drop]
          rfl
        | some tok =>
          dsimp only
          by_cases hb1 : idx + 1 ≥ lines.length
          · rw [if_pos hb1]
            have hnil : lines.drop (idx + 1) = [] :=
              List.drop_eq_nil_of_le (by omega)
            rw [ih (idx + 1) true (by omega), hnil]
            simp [schedInSection]
          · rw [if_neg hb1]
            have hlt1 : idx + 1 < lines.length := by omega
            have htl : pyIdx lines (idx + 1) = Except.ok lines[idx + 1] := by
              simp [pyIdx, List.getElem?_eq_getElem hlt1]
            rw [htl, ok_bind, pyIdxOr_ok, ok_bind, pyIdxOr_ok, ok_bind,
              ih (idx + 1) true (by omega), ok_bind]
            have hdr1 : lines.drop (idx + 1) =
                lines[idx + 1] :: lines.drop (idx + 2) :=
              List.drop_eq_getElem_cons hlt1
            rw [hdr1]
            by_cases halex :
                ((pyStrip tok).map Char.toLower == str "alex") = true
            · rw [if_pos halex,
                extractReferenceChk_ok lines targets (lines.length - (idx + 1))
                  (idx + 1) rfl, ok_bind, hdr1, if_pos rfl]
              simp only [List.drop_drop, head?_drop_getD]
              rw [if_pos trivial, if_pos halex]
              rfl
            · rw [if_neg halex, if_pos rfl]
              simp only [List.drop_drop, head?_drop_getD]
              rw [if_pos trivial, if_neg halex]
              rfl

lemma firstVideoLabelFromChkAux_ok (block : List (List Char)) :
    ∀ (fuel i : Nat),
      firstVideoLabelFromChkAux block fuel i =
        Except.ok (firstVideoLabelFromAux block fuel i) := by
  intro fuel
  induction fuel with
  | zero => intro i; rfl
  | succ fuel ih =>
    intro i
    by_cases h : i < block.length
    · have hp : pyIdx block i = Except.ok block[i] := by
        simp [pyIdx, List.getElem?_eq_getElem h]
      have hg : block.getD i [] = block[i] := by
        simp [List.getD_eq_getElem?_getD, List.getElem?_eq_getElem h]
      simp only [firstVideoLabelFromChkAux, firstVideoLabelFromAux, if_pos h,
        hp, ok_bind, hg]
      by_cases hv : isVideoLabel (pyStrip block[i]) = true
      · rw [if_pos hv, if_pos hv]
        rfl
      · rw [if_neg hv, if_neg hv]
        exact ih (i + 1)
    · simp only [firstVideoLabelFromChkAux, firstVideoLabelFromAux, if_neg h]
      rfl

lemma firstVideoLabelFromChk_ok (block : List (List Char)) (i : Nat) :
    firstVideoLabelFromChk block i =
      Except.ok (firstVideoLabelFrom block i) :=
  firstVideoLabelFromChkAux_ok block (block.length - i) i

lemma firstVideoLabelFromAux_le (block : List (List Char)) :
    ∀ (fuel i : Nat), firstVideoLabelFromAux block fuel i ≤ block.length := by
  intro fuel
  induction fuel with
  | zero => intro i; simp [firstVideoLabelFromAux]
  | succ fuel ih =>
    intro i
    simp only [firstVideoLabelFromAux]
    by_cases h : i < block.length
    · rw [if_pos h]
      by_cases hv : isVideoLabel (pyStrip (block.getD i [])) = true
      · rw [if_pos hv]; omega
      · rw [if_neg hv]; exact ih (i + 1)
    · rw [if_neg h]

lemma firstVideoLabelFrom_le (block : List (List Char)) (i : Nat) :
    firstVideoLabelFrom block i ≤ block.length :=
  firstVideoLabelFromAux_le block (block.length - i) i

lemma refReadChk_ok {block : List (List Char)}
    {btargets : List (Option (List Char))}
    (hlen : btargets.length = block.length) (idx : Nat) (st : BlockState) :
    refReadChk block btargets idx st = Except.ok
      (if idx + 1 < block.length then
        { st with refUrl := pyStrip (block.getD (idx + 1) []),
                  refUrlTarget := truthyStripTarget (btargets.getD (idx + 1) none) }
       else st) := by
  unfold refReadChk
  by_cases h : idx + 1 < block.length
  · have h2 : idx + 1 < btargets.length := by omega
    have hp : pyIdx block (idx + 1) = Except.ok block[idx + 1] := by
      simp [pyIdx, List.getElem?_eq_getElem h]
    have hq : pyIdx btargets (idx + 1) = Except.ok btargets[idx + 1] := by
      simp [pyIdx, List.getElem?_eq_getElem h2]
    have hg1 : block.getD (idx + 1) [] = block[idx + 1] := by
      simp [List.getD_eq_getElem?_getD, List.getElem?_eq_getElem h]
    have hg2 : btargets.getD (idx + 1) none = btargets[idx + 1] := by
      simp [List.getD_eq_getElem?_getD, List.getElem?_eq_getElem h2]
    rw [if_pos h, if_pos h, hp, ok_bind, hq, ok_bind, hg1, hg2]
    rfl
  · rw [if_neg h, if_neg h]
    rfl

lemma vidReadChk_ok {block : List (List Char)}
    {btargets : List (Option (List Char))}
    (hlen : btargets.length = block.length) (idx : Nat) (st : BlockState) :
    vidReadChk block btargets idx st = Except.ok
      (if idx + 1 < block.length then
        { st with videoUrl := pyStrip (block.getD (idx + 1) []),
                  videoUrlTarget := truthyStripTarget (btargets.getD (idx + 1) none) }
       else st) := by
  unfold vidReadChk
  by_cases h : idx + 1 < block.length
  · have h2 : idx + 1 < btargets.length := by omega
    have hp : pyIdx block (idx + 1) = Except.ok block[idx + 1] := by
      simp [pyIdx, List.getElem?_eq_getElem h]
    have hq : pyIdx btargets (idx + 1) = Except.ok btargets[idx + 1] := by
      simp [pyIdx, List.getElem?_eq_getElem h2]
    have hg1 : block.getD (idx + 1) [] = block[idx + 1] := by
      simp [List.getD_eq_getElem?_getD, List.getElem?_eq_getElem h]
    have hg2 : btargets.getD (idx + 1) none = btargets[idx + 1] := by
      simp [List.getD_eq_getElem?_getD, List.getElem?_eq_getElem h2]
    rw [if_pos h, if_pos h, hp, ok_bind, hq, ok_bind, hg1, hg2]
    rfl
  · rw [if_neg h, if_neg h]
    rfl

lemma lineReadChk_ok (block : List (List Char)) (j : Nat) (st : BlockState)
    (f : BlockState → List Char → BlockState) :
    lineReadChk block j st f = Except.ok
      (if j < block.length then f st (pyStrip (block.getD j [])) else st) := by
  unfold lineReadChk
  by_cases h : j < block.length
  · have hp : pyIdx block j = Except.ok block[j] := by
      simp [pyIdx, List.getElem?_eq_getElem h]
    have hg : block.getD j [] = block[j] := by
      simp [List.getD_eq_getElem?_getD, List.getElem?_eq_getElem h]
    rw [if_pos h, if_pos h, hp, ok_bind, hg]
    rfl
  · rw [if_neg h, if_neg h]
    rfl

lemma dateReadChk_ok {block : List (List Char)} {endRef : Nat}
    (hend : endRef ≤ block.length) (defaultYear : Int) (idx : Nat)
    (st : BlockState) :
    dateReadChk block defaultYear endRef idx st = Except.ok
      (if idx + 2 < endRef then
        match parseDatePrefix (block.getD (idx + 2) []) (some defaultYear) with
        | some d =>
          if d ≠ [] then ({ st with datePrefix := d }, idx + 3)
          else (st, idx + 2)
        | none => (st, idx + 2)
       else (st, idx + 2)) := by
  unfold dateReadChk
  by_cases h : idx + 2 < endRef
  · have hlt : idx + 2 < block.length := by omega
    have hp : pyIdx block (idx + 2) = Except.ok block[idx + 2] := by
      simp [pyIdx, List.getElem?_eq_getElem hlt]
    have hg : block.getD (idx + 2) [] = block[idx + 2] := by
      simp [List.getD_eq_getElem?_getD, List.getElem?_eq_getElem hlt]
    rw [if_pos h, if_pos h, hp, ok_bind, hg]
    rfl
  · rw [if_neg h, if_neg h]
    rfl

lemma blockStepChk_ok {block : List (List Char)}
    {btargets : List (Option (List Char))}
    (hlen : btargets.length = block.length) (defaultYear : Int)
    (st : BlockState) (il : Nat × List Char) :
    blockStepChk block btargets defaultYear st il =
      Except.ok (blockStep block btargets defaultYear st il) := by
  simp only [blockStepChk, blockStep]
  by_cases hr : isRefLabel (pyStrip il.2) = true
  · rw [if_pos hr, if_pos hr, refReadChk_ok hlen, ok_bind,
      firstVideoLabelFromChk_ok, ok_bind]
    rw [dateReadChk_ok (firstVideoLabelFrom_le block (il.1 + 1)), ok_bind]
    repeat' split
    all_goals rfl
  · rw [if_neg hr, if_neg hr]
    by_cases hv : isVideoLabel (pyStrip il.2) = true
    · rw [if_pos hv, if_pos hv, vidReadChk_ok hlen, ok_bind,
        lineReadChk_ok, ok_bind, lineReadChk_ok, ok_bind, lineReadChk_ok]
    · rw [if_neg hv, if_neg hv]
      rfl

lemma foldlM_ok_of_ok {σ α : Type} {g : σ → α → Except String σ}
    {f : σ → α → σ} (hg : ∀ s a, g s a = Except.ok (f s a)) :
    ∀ (l : List α) (s : σ), l.foldlM g s = Except.ok (l.foldl f s) := by
  intro l
  induction l with
  | nil => intro s; rfl
  | cons a l ih =>
    intro s
    rw [List.foldlM_cons, hg, ok_bind, ih]
    rfl

lemma blockScanChk_ok {block : List (List Char)}
    {btargets : List (Option (List Char))}
    (hlen : btargets.length = block.length) (defaultYear : Int) :
    blockScanChk block btargets defaultYear =
      Except.ok (blockScan block btargets defaultYear) :=
  foldlM_ok_of_ok (fun s a => blockStepChk_ok hlen defaultYear s a)
    block.enum initBlockState

lemma endIdxChk_ok (lines : List (List Char)) (starts : List Nat)
    (pos : Nat) :
    endIdxChk lines starts pos = Except.ok
      (if pos + 1 < starts.length then starts.getD (pos + 1) 0
       else lines.length) := by
  unfold endIdxChk
  by_cases h : pos + 1 < starts.length
  · have hp : pyIdx starts (pos + 1) = Except.ok starts[pos + 1] := by
      simp [pyIdx, List.getElem?_eq_getElem h]
    have hg : starts.getD (pos + 1) 0 = starts[pos + 1] := by
      simp [List.getD_eq_getElem?_getD, List.getElem?_eq_getElem h]
    rw [if_pos h, if_pos h, hp, hg]
  · rw [if_neg h, if_neg h]
    rfl

lemma blockEntryAtChk_ok {lines : List (List Char)}
    {targets : List (Option (List Char))}
    (hlen : targets.length = lines.length) (defaultYear : Int)
    (starts : List Nat) (pos startIdx : Nat) :
    blockEntryAtChk lines targets defaultYear starts pos startIdx =
      Except.ok (blockEntryAt lines targets defaultYear starts pos startIdx) := by
  simp only [blockEntryAtChk, blockEntryAt]
  rw [endIdxChk_ok, ok_bind]
  generalize (if pos + 1 < starts.length then starts.getD (pos + 1) 0
    else lines.length) = endIdx
  by_cases hshort : endIdx - startIdx ≤ 1
  · rw [if_pos hshort, if_pos hshort]
    rfl
  · rw [if_neg hshort, if_neg hshort]
    have hsl : ((targets.drop startIdx).take (endIdx - startIdx)).length =
        ((lines.drop startIdx).take (endIdx - startIdx)).length := by
      simp [List.length_take, List.length_drop, hlen]
    rw [blockScanChk_ok hsl, ok_bind]
    split <;> rfl

lemma foldlM_filterMap_ok {α β : Type} {g : α → Except String (Option β)}
    {f : α → Option β} (hg : ∀ a, g a = Except.ok (f a)) :
    ∀ (l : List α) (acc : List β),
      l.foldlM (fun acc a => do
        let e ← g a
        pure (acc ++ e.toList)) acc = Except.ok (acc ++ l.filterMap f) := by
  intro l
  induction l with
  | nil =>
    intro acc
    rw [List.filterMap_nil, List.append_nil]
    rfl
  | cons a l ih =>
    intro acc
    have hcons : (a :: l).foldlM (fun acc a => do
        let e ← g a
        pure (acc ++ e.toList)) acc =
      ((g a) >>= fun e => pure (acc ++ e.toList)) >>= fun acc2 =>
        l.foldlM (fun acc a => do
          let e ← g a
          pure (acc ++ e.toList)) acc2 := rfl
    rw [hcons, hg a, ok_bind]
    have hpure : ((pure (acc ++ (f a).toList) : Except String (List β)) >>=
        fun acc2 => l.foldlM (fun acc a => do
          let e ← g a
          pure (acc ++ e.toList)) acc2) =
        l.foldlM (fun acc a => do
          let e ← g a
          pure (acc ++ e.toList)) (acc ++ (f a).toList) := rfl
    rw [hpure, ih]
    cases hfa : f a <;> simp [hfa, List.filterMap_cons]

lemma extractBlocksChk_ok {lines : List (List Char)}
    {targets : List (Option (List Char))}
    (hlen : targets.length = lines.length) (defaultYear : Int) :
    extractBlocksChk lines targets defaultYear =
      Except.ok (extractPostEntriesFromBlocks lines targets defaultYear) := by
  simp only [extractBlocksChk, extractPostEntriesFromBlocks]
  have h := foldlM_filterMap_ok
    (fun ps : Nat × Nat =>
      blockEntryAtChk_ok hlen defaultYear (blockStarts lines) ps.1 ps.2)
    (blockStarts lines).enum []
  rw [List.nil_append] at h
  exact h

/-- C8: when the Line Source supplies one hyperlink-target slot per line
(as `iter_non_empty_paragraphs` does), the extraction core is total on
every line sequence: both extractors and every helper they call, with all
list subscripts routed through checked (`IndexError`-raising) indexing,
return `Except.ok` of the entry list — no unhandled exception escapes. -/
theorem claim_C8 (lines : List (List Char))
    (targets : List (Option (List Char))) (defaultYear : Int)
    (hlen : targets.length = lines.length) :
    extractPostEntriesChk lines targets defaultYear =
      Except.ok (extractPostEntries lines targets defaultYear) := by
  unfold extractPostEntriesChk extractPostEntries
  cases detectScheduleFormat lines with
  | blocks => exact extractBlocksChk_ok hlen defaultYear
  | schedule =>
    rw [schedChkGo_ok lines targets lines.length 0 false rfl]
    simp

/-- Witness for C8: concrete runs of the checked extractor on both
dialects return `Except.ok` of the pure model's output. -/
theorem claim_C8_witness :
    ((noTargets 8).length = exampleScheduleLines.length ∧
      extractPostEntriesChk exampleScheduleLines (noTargets 8) 2026 =
        Except.ok (extractPostEntries exampleScheduleLines (noTargets 8) 2026)) ∧
    ((noTargets 8).length = blocksDateLines.length ∧
      extractPostEntriesChk blocksDateLines (noTargets 8) 2026 =
        Except.ok (extractPostEntries blocksDateLines (noTargets 8) 2026)) :=
  ⟨⟨by decide, claim_C8 exampleScheduleLines (noTargets 8) 2026 (by decide)⟩,
   ⟨by decide, claim_C8 blocksDateLines (noTargets 8) 2026 (by decide)⟩⟩
